import Mathlib

/-!
Verification of `msticpy/sectools/auditdextract.py`.

This file gives a shallow embedding of the auditd extraction module:
the static message-type schemas, the field decoder (`unpack_auditd`),
the event assembler (`_extract_event` / `_extract_mssg_value`), the
line parser (`_parse_audit_message` / `_extract_timestamp`) and the
process-tree builder (`generate_process_tree`), together with theorems
settling the specification's claims about them.

Modelling conventions:
* Python `dict` (insertion ordered, unique keys) is an association list
  `Dict α := List (String × α)` with in-place update (`dictSet`).
* Python exceptions are modelled by `Option`: a function that can raise
  returns `Option _`, with `Option.none` for the raised exception.
* Machine integers are `Int` (Python ints are unbounded).
* pandas DataFrames are lists of records; boolean-mask `.loc` selection
  is `List.filter`, `.loc[:, col] = v` on a fresh mask result is a map
  over the copy (pandas returns copies for mask selections).
-/

set_option linter.unusedVariables false

namespace Auditd

/-! ## Python string primitives -/

/-- Characters stripped by Python `str.rstrip()` / `int()` (ASCII whitespace;
Unicode whitespace is not modelled as the audit wire format is ASCII). -/
def pyIsSpace (c : Char) : Bool :=
  c = ' ' ∨ c = '\t' ∨ c = '\n' ∨ c = '\r' ∨ c = '\x0b' ∨ c = '\x0c'

/-- Python `str.rstrip()`. -/
def pyRstrip (s : String) : String :=
  ⟨(s.toList.reverse.dropWhile pyIsSpace).reverse⟩

/-- Python `str.strip()` (both ends). -/
def pyStrip (s : String) : String :=
  ⟨((s.toList.dropWhile pyIsSpace).reverse.dropWhile pyIsSpace).reverse⟩

/-- Python `str.strip('"')`: remove all leading and trailing `"` characters. -/
def pyStripQuotes (s : String) : String :=
  ⟨((s.toList.dropWhile (· = '"')).reverse.dropWhile (· = '"')).reverse⟩

/-- `s.startswith(pre)`. -/
def strStartsWith (s pre : String) : Bool :=
  s.toList.take pre.toList.length == pre.toList

/-- `s[n:]` (drop the first `n` characters). -/
def strDrop (s : String) (n : Nat) : String :=
  ⟨s.toList.drop n⟩

/-- Worker for `pySplit`: split on a nonempty separator, left to right.
Each step consumes at least one character, so a fuel of `length + 1`
always reaches the empty-input case; the fuel-0 fallback is unreachable. -/
def splitSepFuel (sep : List Char) : Nat → List Char → List Char → List (List Char)
  | 0, cs, acc => [acc.reverse ++ cs]
  | Nat.succ _, [], acc => [acc.reverse]
  | Nat.succ f, c :: rest, acc =>
    if (c :: rest).take sep.length == sep then
      acc.reverse :: splitSepFuel sep f ((c :: rest).drop sep.length) []
    else splitSepFuel sep f rest (c :: acc)

/-- Python `s.split(sep)` for a nonempty separator. -/
def pySplit (s sep : String) : List String :=
  (splitSepFuel sep.toList (s.toList.length + 1) s.toList []).map (fun cs => ⟨cs⟩)

/-- Python `sep.join(parts)`. -/
def pyJoin (sep : String) : List String → String
  | [] => ""
  | [x] => x
  | x :: y :: rest => x ++ sep ++ pyJoin sep (y :: rest)

def pyDigit (c : Char) : Bool := '0' ≤ c ∧ c ≤ '9'

/-- Digit run of a Python integer literal: nonempty, starts and ends with a
digit, only digits and single `_` separators between digits. -/
def pyDigitsValid : List Char → Bool
  | [] => false
  | [c] => pyDigit c
  | c :: c' :: rest =>
    if pyDigit c then pyDigitsValid (c' :: rest)
    else if c = '_' then pyDigit c' && pyDigitsValid (c' :: rest)
    else false

def pyDigitsVal (cs : List Char) : Nat :=
  cs.foldl (fun acc c => if pyDigit c then acc * 10 + (c.toNat - '0'.toNat) else acc) 0

/-- Python `int(str)` in base 10: optional surrounding whitespace, optional
sign, digits with `_` separators.  `Option.none` models the `ValueError`. -/
def pyInt (s : String) : Option Int :=
  let cs := (pyStrip s).toList
  match cs with
  | '+' :: rest => if pyDigitsValid rest then Option.some (Int.ofNat (pyDigitsVal rest)) else Option.none
  | '-' :: rest => if pyDigitsValid rest then Option.some (-(Int.ofNat (pyDigitsVal rest))) else Option.none
  | rest => if pyDigitsValid rest then Option.some (Int.ofNat (pyDigitsVal rest)) else Option.none

/-! ## Hex and UTF-8 decoding (`codecs.decode(bytes(v), "hex").decode("utf-8")`) -/

def hexDigitVal (c : Char) : Option Nat :=
  if '0' ≤ c ∧ c ≤ '9' then Option.some (c.toNat - '0'.toNat)
  else if 'a' ≤ c ∧ c ≤ 'f' then Option.some (c.toNat - 'a'.toNat + 10)
  else if 'A' ≤ c ∧ c ≤ 'F' then Option.some (c.toNat - 'A'.toNat + 10)
  else Option.none

/-- Decode a hex string to bytes; fails on odd length or non-hex digits
(`binascii.Error`, a `ValueError`). -/
def hexToBytes : List Char → Option (List Nat)
  | [] => Option.some []
  | [_] => Option.none
  | c1 :: c2 :: rest =>
    match hexDigitVal c1, hexDigitVal c2 with
    | Option.some h, Option.some l =>
      (hexToBytes rest).map (fun bs => (h * 16 + l) :: bs)
    | _, _ => Option.none

def isCont (b : Nat) : Bool := 0x80 ≤ b ∧ b ≤ 0xBF

/-- Strict UTF-8 decoding of a byte list, as Python's `bytes.decode("utf-8")`:
rejects overlong encodings, surrogates and code points above `0x10FFFF`.
`Option.none` models the `UnicodeDecodeError` (a `ValueError` subclass). -/
def utf8Decode : List Nat → Option (List Char)
  | [] => Option.some []
  | b1 :: rest =>
    if b1 ≤ 0x7F then
      (utf8Decode rest).map (fun cs => Char.ofNat b1 :: cs)
    else if 0xC2 ≤ b1 ∧ b1 ≤ 0xDF then
      match rest with
      | b2 :: rest2 =>
        if isCont b2 then
          (utf8Decode rest2).map (fun cs => Char.ofNat ((b1 - 0xC0) * 64 + (b2 - 0x80)) :: cs)
        else Option.none
      | _ => Option.none
    else if 0xE0 ≤ b1 ∧ b1 ≤ 0xEF then
      match rest with
      | b2 :: b3 :: rest3 =>
        if isCont b2 ∧ isCont b3
            ∧ (b1 ≠ 0xE0 ∨ 0xA0 ≤ b2)
            ∧ (b1 ≠ 0xED ∨ b2 ≤ 0x9F) then
          (utf8Decode rest3).map
            (fun cs => Char.ofNat ((b1 - 0xE0) * 4096 + (b2 - 0x80) * 64 + (b3 - 0x80)) :: cs)
        else Option.none
      | _ => Option.none
    else if 0xF0 ≤ b1 ∧ b1 ≤ 0xF4 then
      match rest with
      | b2 :: b3 :: b4 :: rest4 =>
        if isCont b2 ∧ isCont b3 ∧ isCont b4
            ∧ (b1 ≠ 0xF0 ∨ 0x90 ≤ b2)
            ∧ (b1 ≠ 0xF4 ∨ b2 ≤ 0x8F) then
          (utf8Decode rest4).map
            (fun cs => Char.ofNat ((b1 - 0xF0) * 262144 + (b2 - 0x80) * 4096
              + (b3 - 0x80) * 64 + (b4 - 0x80)) :: cs)
        else Option.none
      | _ => Option.none
    else Option.none

/-- `codecs.decode(bytes(v, "utf-8"), "hex").decode("utf-8")`.  A non-ASCII
character in `v` encodes to non-hex-digit bytes, so checking hex digits
directly is equivalent. -/
def hexUtf8Decode (s : String) : Option String :=
  (hexToBytes s.toList).bind (fun bs => (utf8Decode bs).map (fun cs => ⟨cs⟩))

/-! ## Python dicts as insertion-ordered association lists -/

abbrev Dict (α : Type) : Type := List (String × α)

def dictGet {α : Type} : Dict α → String → Option α
  | [], _ => Option.none
  | (k', v) :: rest, k => if k' = k then Option.some v else dictGet rest k

/-- `d[k] = v`: update in place if present, else append (insertion order). -/
def dictSet {α : Type} : Dict α → String → α → Dict α
  | [], k, v => [(k, v)]
  | (k', v') :: rest, k, v =>
    if k' = k then (k, v) :: rest else (k', v') :: dictSet rest k v

def dictContains {α : Type} (d : Dict α) (k : String) : Bool :=
  (dictGet d k).isSome

def dictKeys {α : Type} (d : Dict α) : List String := d.map (fun p => p.1)

/-! ## Static schema tables (`_ENCODED_PARAMS`, `_USER_START`, `_FIELD_DEFS`) -/

/-- `_ENCODED_PARAMS`: fields that are frequently hex-encoded. -/
def ENCODED_PARAMS : Dict (List String) :=
  [("EXECVE", ["a0", "a1", "a2", "a3", "arch"]),
   ("PROCTITLE", ["proctitle"]),
   ("USER_CMD", ["cmd"])]

/-- `_USER_START`: schema shared by several user-session message types.
A field's type hint is `Option.some "int"` or `Option.none`. -/
def USER_START : Dict (Option String) :=
  [("pid", Option.some "int"), ("uid", Option.some "int"), ("auid", Option.some "int"),
   ("ses", Option.some "int"), ("msg", Option.none), ("acct", Option.none),
   ("exe", Option.none), ("hostname", Option.none), ("addr", Option.none),
   ("terminal", Option.none), ("res", Option.none)]

/-- `_FIELD_DEFS`: message-type schema (field order is the dict insertion
order of the source). -/
def FIELD_DEFS : Dict (Dict (Option String)) :=
  [("SYSCALL",
    [("success", Option.none), ("ppid", Option.some "int"), ("pid", Option.some "int"),
     ("auid", Option.some "int"), ("uid", Option.some "int"), ("gid", Option.some "int"),
     ("euid", Option.some "int"), ("egid", Option.some "int"), ("ses", Option.some "int"),
     ("exe", Option.none), ("com", Option.none)]),
   ("CWD", [("cwd", Option.none)]),
   ("PROCTITLE", [("proctitle", Option.none)]),
   ("LOGIN",
    [("pid", Option.some "int"), ("uid", Option.some "int"), ("tty", Option.none),
     ("old-ses", Option.some "int"), ("ses", Option.some "int"), ("res", Option.none)]),
   ("EXECVE",
    [("argc", Option.some "int"), ("a0", Option.none), ("a1", Option.none),
     ("a2", Option.none)]),
   ("_USER_START", USER_START),
   ("USER_END", USER_START),
   ("CRED_DISP", USER_START),
   ("USER_ACCT", USER_START),
   ("CRED_ACQ", USER_START),
   ("USER_CMD",
    [("pid", Option.some "int"), ("uid", Option.some "int"), ("auid", Option.some "int"),
     ("ses", Option.some "int"), ("msg", Option.none), ("cmd", Option.none),
     ("terminal", Option.none), ("res", Option.none)])]

/-! ## `unpack_auditd` -/

/-- Raw field map of one message type: field name to raw value
(`Option.none` for a bare key without `=`). -/
abbrev RawFields : Type := Dict (Option String)

/-- Grouped record: message type to raw fields. -/
abbrev MsgDict : Type := Dict RawFields

/-- `rec_item.split("=", maxsplit=1)`. -/
def splitKV (s : String) : String × Option String :=
  match pySplit s "=" with
  | [] => (s, Option.none)
  | [k] => (k, Option.none)
  | k :: rest => (k, Option.some (pyJoin "=" rest))

/-- Decode one raw token value, given the encoded-field set of the owning
message type (lines 130-155 of the source): quoted or non-encoded values are
quote-stripped; encoded fields are hex-decoded with fallback to the raw
string on `ValueError`. -/
def decodeFieldValue (encodedFieldsMap : Option (List String)) (key rawVal : String) : String :=
  let falsyMap := match encodedFieldsMap with
    | Option.none => true
    | Option.some l => l.isEmpty
  let notInMap := match encodedFieldsMap with
    | Option.none => true
    | Option.some l => ! l.contains key
  if falsyMap || strStartsWith rawVal "\"" || notInMap then
    pyStripQuotes rawVal
  else
    match hexUtf8Decode rawVal with
    | Option.some t => t
    | Option.none => rawVal

/-- Process the token list of one message type into its raw field dict. -/
def unpackRecord (recKey : String) (recVal : List String) : RawFields :=
  let encodedFieldsMap := dictGet ENCODED_PARAMS recKey
  recVal.foldl
    (fun recDict recItem =>
      let sp := splitKV recItem
      match sp.2 with
      | Option.none => dictSet recDict sp.1 Option.none
      | Option.some v => dictSet recDict sp.1 (Option.some (decodeFieldValue encodedFieldsMap sp.1 v)))
    []

/-- `unpack_auditd`: unpack a list of single-type records into a dict of
message type to decoded field dict. -/
def unpack_auditd (auditStr : List (Dict (List String))) : MsgDict :=
  auditStr.foldl
    (fun eventDict record =>
      record.foldl (fun ed p => dictSet ed p.1 (unpackRecord p.1 p.2)) eventDict)
    []

/-! ## `_extract_mssg_value` and `_extract_event` -/

/-- A value stored in the assembled event dict: a string, an int (after
schema conversion), or Python `None` (bare keys merged from non-schema
types). -/
inductive FVal where
  | str : String → FVal
  | int : Int → FVal
  | null : FVal
deriving Repr, DecidableEq

abbrev EventDict : Type := Dict FVal

/-- Sentinel normalization: `if value == 4294967295: value = -1`. -/
def normInt (n : Int) : Int := if n = 4294967295 then -1 else n

/-- Collision rule of `_extract_mssg_value` (lines 234-237): if the field
name already exists, store under `"<field>_<messageType>"`, else bare. -/
def dictInsertCollide (d : EventDict) (fieldname mssgType : String) (v : FVal) : EventDict :=
  if dictContains d fieldname then dictSet d (fieldname ++ "_" ++ mssgType) v
  else dictSet d fieldname v

/-- Field loop of `_extract_mssg_value` (lines 225-237).  NOTE: on an absent
or empty raw value the source executes `return`, not `continue`, so the
remaining schema fields of the message type are skipped; this is modelled
by `Option.some d` without recursing.  `Option.none` models the uncaught
`ValueError` of `int(value)`. -/
def extractFields (mssgType : String) (raw : RawFields) :
    List (String × Option String) → EventDict → Option EventDict
  | [], d => Option.some d
  | (fieldname, conv) :: rest, d =>
    match (dictGet raw fieldname).getD Option.none with
    | Option.none => Option.some d
    | Option.some s =>
      if s = "" then Option.some d
      else
        match conv with
        | Option.some c =>
          if c = "int" then
            match pyInt s with
            | Option.none => Option.none
            | Option.some n =>
              extractFields mssgType raw rest (dictInsertCollide d fieldname mssgType (FVal.int (normInt n)))
          else extractFields mssgType raw rest (dictInsertCollide d fieldname mssgType (FVal.str s))
        | Option.none =>
          extractFields mssgType raw rest (dictInsertCollide d fieldname mssgType (FVal.str s))

/-- `_extract_mssg_value`: `Option.none` models a raised exception
(`KeyError` on a type absent from the schema or record, or `ValueError`
from `int`). -/
def extract_mssg_value (mssgType : String) (messageDict : MsgDict) (eventDict : EventDict) :
    Option EventDict :=
  match dictGet FIELD_DEFS mssgType, dictGet messageDict mssgType with
  | Option.some fields, Option.some raw => extractFields mssgType raw fields eventDict
  | _, _ => Option.none

/-- `" ".join` argument coercion: joining a non-string raises `TypeError`. -/
def fvalAsStr : FVal → Option String
  | FVal.str s => Option.some s
  | _ => Option.none

/-- `int(...)` applied to a value already in the event dict. -/
def pyIntOfFVal : FVal → Option Int
  | FVal.int n => Option.some n
  | FVal.str s => pyInt s
  | FVal.null => Option.none

/-- The `cmdline` reconstruction of the composite path (lines 184-190):
`args = int(d.get("argc", 1))`, then join `d.get(f"a{i}", "")` for
`i in range(0, args)`. -/
def buildCmdline (d : EventDict) : Option EventDict :=
  match pyIntOfFVal ((dictGet d "argc").getD (FVal.int 1)) with
  | Option.none => Option.none
  | Option.some args =>
    match (List.range args.toNat).mapM
        (fun i => fvalAsStr ((dictGet d ("a" ++ toString i)).getD (FVal.str ""))) with
    | Option.none => Option.none
    | Option.some argStrs =>
      Option.some (dictSet d "cmdline" (FVal.str (pyJoin " " argStrs)))

/-- Composite path of `_extract_event` (lines 177-191): merge `SYSCALL`,
`CWD`, `EXECVE`, `PROCTITLE` in that order, skipping absent types, and
derive `cmdline` right after `EXECVE`. -/
def compositeAssemble (messageDict : MsgDict) : Option EventDict :=
  ["SYSCALL", "CWD", "EXECVE", "PROCTITLE"].foldlM
    (fun d mssgType =>
      if ¬ (dictContains messageDict mssgType) ∨ ¬ (dictContains FIELD_DEFS mssgType) then
        Option.some d
      else
        (extract_mssg_value mssgType messageDict d).bind
          (fun d' => if mssgType = "EXECVE" then buildCmdline d' else Option.some d'))
    []

/-- Raw merge for a type not in the schema (line 201):
`event_dict.update(message_dict[mssg_type])`, last writer wins. -/
def dictUpdateRaw (d : EventDict) (raw : RawFields) : EventDict :=
  raw.foldl
    (fun d p => dictSet d p.1 (match p.2 with
      | Option.some s => FVal.str s
      | Option.none => FVal.null))
    d

/-- General path of `_extract_event` (lines 193-202). -/
def generalAssemble (messageDict : MsgDict) : Option EventDict :=
  messageDict.foldlM
    (fun d p =>
      if dictContains FIELD_DEFS p.1 then extract_mssg_value p.1 messageDict d
      else Option.some (dictUpdateRaw d p.2))
    []

/-- `_extract_event`: assemble one grouped record into
`(eventType, eventDict)`.  `Option.none` models a raised exception
(`ValueError` from `int`, `TypeError` from `join`, `IndexError` on an
empty record). -/
def extract_event (messageDict : MsgDict) : Option (String × EventDict) :=
  if dictContains messageDict "SYSCALL" ∧ dictContains messageDict "EXECVE" then
    (compositeAssemble messageDict).map (fun d => ("SYSCALL_EXECVE", d))
  else
    match messageDict with
    | [] => Option.none
    | (t, _) :: _ => (generalAssemble messageDict).map (fun d => (t, d))

/-! ## `_parse_audit_message` and `_extract_timestamp` -/

/-- `audit_message[0]` where `audit_message = audit_str.rstrip().split(": ")`
(`split` always returns a nonempty list, so the index is safe). -/
def headerOf (auditStr : String) : String :=
  (pySplit (pyRstrip auditStr) ": ").headD ""

/-- `re.match(r"type=([^\s]+)", headers)`: anchored at the start, captures a
maximal nonempty run of non-whitespace after `type=`. -/
def reMatchType (s : String) : Option String :=
  if strStartsWith s "type=" then
    let tok : List Char := (strDrop s 5).toList.takeWhile (fun c => ¬ pyIsSpace c)
    if tok.isEmpty then Option.none else Option.some ⟨tok⟩
  else Option.none

/-- Try `msg=audit\(([^\)]+)\)` at the head of `cs`: the literal
`msg=audit(`, a nonempty run of non-`)` characters, then `)`. -/
def matchAuditAt (cs : List Char) : Option String :=
  if cs.take 10 = "msg=audit(".toList then
    let rest := cs.drop 10
    let cap := rest.takeWhile (fun c => c ≠ ')')
    if cap.isEmpty then Option.none
    else if (rest.drop cap.length).take 1 = [')'] then Option.some ⟨cap⟩
    else Option.none
  else Option.none

/-- `re.match(r".*msg=audit\(([^\)]+)\)", headers)`: the greedy `.*` cannot
cross a newline, and backtracking selects the last viable occurrence of
`msg=audit(...)`. -/
def reMatchAudit (s : String) : Option String :=
  let cs := s.toList
  let limit := ((cs.findIdx? (fun c => c = '\n')).getD cs.length)
  ((List.range (limit + 1)).reverse).findSome? (fun p => matchAuditAt (cs.drop p))

/-- `_parse_audit_message` (lines 443-464).  On a header matching `type=`
but a line without `": "`, `audit_message[1]` raises `IndexError`, modelled
by `Option.none`; on a non-matching header it returns the empty list. -/
def parse_audit_message (auditStr : String) : Option (List (Dict (List String))) :=
  match reMatchType (headerOf auditStr) with
  | Option.some t =>
    match (pySplit (pyRstrip auditStr) ": ").get? 1 with
    | Option.some body => Option.some [[(t, pySplit body " ")]]
    | Option.none => Option.none
  | Option.none => Option.some []

/-- `_extract_timestamp` (lines 467-488): every operation is total, so the
function returns a string for every input, `""` when the header does not
match. -/
def extract_timestamp (auditStr : String) : String :=
  match reMatchAudit (headerOf auditStr) with
  | Option.some payload => (pySplit payload ":").headD ""
  | Option.none => ""

/-! ## Input-table state effect of `extract_events_to_df` (lines 287-299)

Only lines 293-299 of `extract_events_to_df` write to the caller's table
`data`: when the input column holds raw strings, a `mssg_id` column is
added and the input column is overwritten with parsed messages.  The rest
of the function builds new frames (`tmp_df`) and never writes to `data`,
so only the effect on `data` is modelled here. -/

/-- A cell of the input column: a raw auditd string, or the parsed message
list after the in-place rewrite. -/
inductive AuditdCell where
  | raw : String → AuditdCell
  | parsed : List (Dict (List String)) → AuditdCell
deriving Repr, DecidableEq

/-- One row of the caller's table: the input column and the `mssg_id`
column (absent before the rewrite). -/
structure EvRow where
  auditdMessage : AuditdCell
  mssgId : Option String
deriving Repr, DecidableEq

def evRowCell (r : EvRow) : Option String :=
  match r.auditdMessage with
  | AuditdCell.raw s => Option.some s
  | AuditdCell.parsed _ => Option.none

/-- The state of `data` after `extract_events_to_df` returns.  `Option.none`
models a raised exception: indexing `head(1)[0]` on an empty table, a
non-string cell reached by the row-wise `apply`, or an `IndexError` from
`_parse_audit_message`. -/
def extract_events_to_df_state (data : List EvRow) : Option (List EvRow) :=
  match data.head? with
  | Option.none => Option.none
  | Option.some r0 =>
    match r0.auditdMessage with
    | AuditdCell.parsed _ => Option.some data
    | AuditdCell.raw _ =>
      data.mapM (fun r =>
        match evRowCell r with
        | Option.none => Option.none
        | Option.some s =>
          (parse_audit_message s).map
            (fun p => EvRow.mk (AuditdCell.parsed p) (Option.some (extract_timestamp s))))

/-! ## `generate_process_tree` (lines 492-589)

A row of the audit table carries exactly the columns the builder reads or
emits: `TimeGenerated`, `pid`, `ppid`, `exe`, `cmd`, `uid`, `cwd`, plus the
`NodeRole`/`Level` columns added during traversal (`Option.none` when the
column is absent or the cell is null/NaN).  The canonical renaming at
lines 559-570 (`pid → NewProcessId` etc.) is a pure relabelling and is the
identity here.  `sort_values` is modelled by a sort on `TimeGenerated`
(membership in the result is what the claims are about). -/

structure PRow where
  timeGenerated : Int
  pid : Option Int
  ppid : Option Int
  exe : Option String
  cmd : Option String
  uid : Option Int
  cwd : Option String
  nodeRole : Option String
  level : Option Nat
deriving Repr, DecidableEq

/-- The caller's seed-process table: its rows plus whether the `NodeRole`
and `Level` columns are present (a pandas column exists table-wide). -/
structure ProcTable where
  rows : List PRow
  hasNodeRole : Bool
  hasLevel : Bool
deriving Repr, DecidableEq

/-- `df.loc[:, "NodeRole"] = role; df.loc[:, "Level"] = lvl` on a frame. -/
def tagRow (role : String) (lvl : Nat) (r : PRow) : PRow :=
  { r with nodeRole := Option.some role, level := Option.some lvl }

/-- `audit_data.loc[audit_data["pid"] == k]` (a NaN pid never equals `k`). -/
def lookupByPid (audit : List PRow) (k : Int) : List PRow :=
  audit.filter (fun r => r.pid = Option.some k)

/-- `audit_data.loc[audit_data["ppid"] == k]`. -/
def lookupByPpid (audit : List PRow) (k : Int) : List PRow :=
  audit.filter (fun r => r.ppid = Option.some k)

/-- State of one ancestor/descendant `while` loop: the current frame
(`pdf`/`cdf`), the `count` counter and the accumulated `process_tree`. -/
structure WalkSt where
  frame : List PRow
  count : Nat
  tree : List PRow
deriving Repr, DecidableEq

/-- One iteration of `for ancest_pid in pdf["ppid"]` (lines 531-539):
a NaN ppid sets `count = branch_depth + 1` and continues; otherwise the
parent lookup is tagged `parent`/`count+1`, appended, and `count`
incremented. -/
def ancStep (audit : List PRow) (D : Nat) (st : WalkSt) (ancestPid : Option Int) : WalkSt :=
  match ancestPid with
  | Option.none => { st with count := D + 1 }
  | Option.some ap =>
    let pdf := (lookupByPid audit ap).map (tagRow "parent" (st.count + 1))
    { frame := pdf, count := st.count + 1, tree := st.tree ++ pdf }

/-- Body of the ancestor `while` (lines 528-539).  The `for` iterates over
the ppid column of the frame as it was when the loop started. -/
def ancBody (audit : List PRow) (D : Nat) (st : WalkSt) : WalkSt :=
  if st.frame.isEmpty then { st with count := D + 1 }
  else (st.frame.map (fun r => r.ppid)).foldl (ancStep audit D) st

/-- The ancestor `while count <= branch_depth` loop (line 527), with an
explicit iteration budget; `ancWhile_stable` below proves that a budget of
`D` iterations is always enough, which is the termination argument. -/
def ancWhile (audit : List PRow) (D : Nat) : Nat → WalkSt → WalkSt
  | 0, st => st
  | Nat.succ f, st =>
    if st.count ≤ D then ancWhile audit D f (ancBody audit D st) else st

/-- One iteration of `for desc_pid in cdf["pid"]` (lines 553-558): here a
NaN pid is passed to `int()` unguarded, so it raises (`Option.none`). -/
def descStep (audit : List PRow) (D : Nat) (ost : Option WalkSt) (descPid : Option Int) :
    Option WalkSt :=
  match ost with
  | Option.none => Option.none
  | Option.some st =>
    match descPid with
    | Option.none => Option.none
    | Option.some dp =>
      let cdf := (lookupByPpid audit dp).map (tagRow "child" (st.count + 1))
      Option.some { frame := cdf, count := st.count + 1, tree := st.tree ++ cdf }

/-- Body of the descendant `while` (lines 549-558). -/
def descBody (audit : List PRow) (D : Nat) (st : WalkSt) : Option WalkSt :=
  if st.frame.isEmpty then Option.some { st with count := D + 1 }
  else (st.frame.map (fun r => r.pid)).foldl (descStep audit D) (Option.some st)

/-- The descendant `while count <= branch_depth` loop (line 549). -/
def descWhile (audit : List PRow) (D : Nat) : Nat → WalkSt → Option WalkSt
  | 0, st => Option.some st
  | Nat.succ f, st =>
    if st.count ≤ D then
      match descBody audit D st with
      | Option.none => Option.none
      | Option.some st' => descWhile audit D f st'
    else Option.some st

/-- Generation-1 children of a seed row (lines 541-546): rows with a
strictly later timestamp whose ppid equals the seed's pid, tagged
`child`/1. -/
def gen1Children (audit : List PRow) (proc : PRow) (pp : Int) : List PRow :=
  ((audit.filter (fun r => proc.timeGenerated < r.timeGenerated)).filter
    (fun r => r.ppid = Option.some pp)).map (tagRow "child" 1)

/-- Generation-1 frame of the ancestor walk (lines 522-524): rows whose pid
equals the seed pid, tagged `parent`/1. -/
def gen1Parents (audit : List PRow) (pp : Int) : List PRow :=
  (lookupByPid audit pp).map (tagRow "parent" 1)

/-- The descendant pass (lines 540-558): for every seed row, select the
generation-1 children, then run the bounded descendant walk.  Note this
whole pass is nested inside the loop over seed pids in the source. -/
def descPass (audit : List PRow) (D fuel : Nat) (procsRows : List PRow) (tree0 : List PRow) :
    Option (List PRow) :=
  procsRows.foldlM
    (fun tree proc =>
      match proc.pid with
      | Option.none => Option.none
      | Option.some pp =>
        (descWhile audit D fuel
          { frame := gen1Children audit proc pp, count := 1,
            tree := tree ++ gen1Children audit proc pp }).map
          (fun st => st.tree))
    tree0

/-- One iteration of `for proc_pid in procs["pid"]` (lines 521-558): gen-1
parent lookup, ancestor walk, then the descendant pass over all seeds. -/
def seedStep (audit : List PRow) (D fuel : Nat) (procsRows : List PRow)
    (otree : Option (List PRow)) (procPid : Option Int) : Option (List PRow) :=
  match otree with
  | Option.none => Option.none
  | Option.some tree =>
    match procPid with
    | Option.none => Option.none
    | Option.some pp =>
      descPass audit D fuel procsRows
        (ancWhile audit D fuel
          { frame := gen1Parents audit pp, count := 1,
            tree := tree ++ gen1Parents audit pp }).tree

/-- The loop over seed pids (lines 521-558): each seed's ancestor walk
followed by the full descendant pass. -/
def seedFold (audit : List PRow) (D fuel : Nat) (procsRows : List PRow) :
    Option (List PRow) :=
  (procsRows.map (fun r => r.pid)).foldl (seedStep audit D fuel procsRows) (Option.some [])

/-- Stable ascending insertion by `TimeGenerated` (`sort_values`). -/
def insertByTime (r : PRow) : List PRow → List PRow
  | [] => [r]
  | x :: xs =>
    if x.timeGenerated ≤ r.timeGenerated then x :: insertByTime r xs else r :: x :: xs

def sortByTime (l : List PRow) : List PRow := l.foldr insertByTime []

/-- `drop_duplicates()`: keep the first occurrence of each full row. -/
def dropDuplicates (l : List PRow) : List PRow :=
  l.foldl (fun acc r => if r ∈ acc then acc else acc ++ [r]) []

/-- Lines 559-589: rename (identity on this row model), append the seed
table, sort by timestamp, select the output columns, drop rows with null
`NewProcessId` and drop duplicates. -/
def finalizeTree (tree procsRows : List PRow) : List PRow :=
  dropDuplicates ((sortByTime (tree ++ procsRows)).filter (fun r => r.pid.isSome))

/-- `generate_process_tree` with an explicit per-loop iteration budget.
Returns the final state of the caller's `processes` table (the source
mutates it in place) and the output tree; `Option.none` models an uncaught
exception (`int()` on a NaN pid). -/
def genProcessTreeFuel (audit : List PRow) (D : Nat) (processes : Option ProcTable)
    (fuel : Nat) : Option (Option ProcTable × List PRow) :=
  let procs0 : ProcTable :=
    match processes with
    | Option.none => ProcTable.mk ((audit.filter (fun r => r.pid.isSome)).take 5) false false
    | Option.some t => t
  let procs : ProcTable :=
    if procs0.hasNodeRole = false ∧ procs0.hasLevel = false then
      ProcTable.mk (procs0.rows.map (tagRow "source" 0)) true true
    else procs0
  match seedFold audit D fuel procs.rows with
  | Option.none => Option.none
  | Option.some tree =>
    Option.some (processes.map (fun _ => procs), finalizeTree tree procs.rows)

/-- `generate_process_tree`: the while-loops are run with budget `D`,
which `genProcessTree_fuel_stable` proves sufficient for every input. -/
def generate_process_tree (audit : List PRow) (D : Nat) (processes : Option ProcTable) :
    Option (Option ProcTable × List PRow) :=
  genProcessTreeFuel audit D processes D

/-- The seed rows selected when no `processes` table is supplied
(line 514), after tagging: first five rows with non-null pid. -/
def seedsOf (audit : List PRow) : List PRow :=
  ((audit.filter (fun r => r.pid.isSome)).take 5).map (tagRow "source" 0)

/-- Key-closure predicate used to state C10: an output key is the derived
`cmdline` or a schema field of a type present in the record, bare or
suffixed with `"_<type>"`. -/
def keyClosed (md : MsgDict) (k : String) : Prop :=
  k = "cmdline" ∨
    ∃ T ∈ dictKeys md, ∃ fs, dictGet FIELD_DEFS T = Option.some fs ∧
      (k ∈ fs.map Prod.fst ∨ ∃ f ∈ fs.map Prod.fst, k = f ++ "_" ++ T)

/-! ## Dictionary lemmas -/

theorem dictGet_dictSet_self {α : Type} (d : Dict α) (k : String) (v : α) :
    dictGet (dictSet d k v) k = Option.some v := by
  induction d with
  | nil => simp [dictSet, dictGet]
  | cons p rest ih =>
    by_cases h : p.1 = k
    · simp [dictSet, dictGet, h]
    · simp [dictSet, dictGet, h, ih]

theorem dictGet_dictSet_ne {α : Type} (d : Dict α) (k k' : String) (v : α) (h : k ≠ k') :
    dictGet (dictSet d k v) k' = dictGet d k' := by
  induction d with
  | nil => simp [dictSet, dictGet, h]
  | cons p rest ih =>
    by_cases hp : p.1 = k
    · simp [dictSet, dictGet, hp, h]
    · simp [dictSet, dictGet, hp, ih]

theorem mem_dictKeys_of_dictGet {α : Type} {d : Dict α} {k : String} {v : α}
    (h : dictGet d k = Option.some v) : k ∈ dictKeys d := by
  induction d with
  | nil => simp [dictGet] at h
  | cons p rest ih =>
    by_cases hp : p.1 = k
    · simp [dictKeys, hp]
    · simp [dictGet, hp] at h
      simp [dictKeys] at ih ⊢
      exact Or.inr (ih h)

theorem dictContains_eq_false {α : Type} {d : Dict α} {k : String}
    (h : ¬ k ∈ dictKeys d) : dictContains d k = false := by
  rcases ho : dictGet d k with _ | v
  · simp [dictContains, ho]
  · exact absurd (mem_dictKeys_of_dictGet ho) h

theorem mem_dictKeys_dictSet {α : Type} {d : Dict α} {k k' : String} {v : α}
    (h : k' ∈ dictKeys (dictSet d k v)) : k' = k ∨ k' ∈ dictKeys d := by
  induction d with
  | nil => simpa [dictSet, dictKeys] using h
  | cons p rest ih =>
    by_cases hp : p.1 = k
    · simp [dictSet, hp, dictKeys] at h
      rcases h with h | h
      · exact Or.inl h
      · exact Or.inr (by simp [dictKeys]; exact Or.inr h)
    · simp [dictSet, hp, dictKeys] at h
      rcases h with h | h
      · exact Or.inr (by simp [dictKeys, h])
      · rcases ih (by simpa [dictKeys] using h) with h' | h'
        · exact Or.inl h'
        · exact Or.inr (by simp [dictKeys] at h' ⊢; exact Or.inr h')

theorem mem_dictKeys_insertCollide {d : EventDict} {f T k : String} {v : FVal}
    (h : k ∈ dictKeys (dictInsertCollide d f T v)) :
    k ∈ dictKeys d ∨ k = f ∨ k = f ++ "_" ++ T := by
  unfold dictInsertCollide at h
  by_cases hc : dictContains d f
  · simp [hc] at h
    rcases mem_dictKeys_dictSet h with h' | h'
    · exact Or.inr (Or.inr h')
    · exact Or.inl h'
  · simp [hc] at h
    rcases mem_dictKeys_dictSet h with h' | h'
    · exact Or.inr (Or.inl h')
    · exact Or.inl h'

/-- Generic invariant preservation for `Option`-monadic left folds. -/
theorem foldlM_option_inv {α β : Type} (P : β → Prop) {f : β → α → Option β} :
    ∀ {l : List α} {b b' : β}, List.foldlM f b l = Option.some b' → P b →
    (∀ x ∈ l, ∀ c c', P c → f c x = Option.some c' → P c') → P b'
  | [], b, b', h, hP, _ => by
    simp [List.foldlM] at h
    exact h ▸ hP
  | a :: l, b, b', h, hP, hstep => by
    rw [List.foldlM_cons] at h
    rcases hfa : f b a with _ | c
    · rw [hfa] at h; simp at h
    · rw [hfa] at h; simp at h
      exact foldlM_option_inv P h (hstep a (by simp) b c hP hfa)
        (fun x hx c c' hc hf => hstep x (by simp [hx]) c c' hc hf)

/-- Generic invariant preservation for pure left folds. -/
theorem foldl_inv {α β : Type} (P : β → Prop) {f : β → α → β} {l : List α} {b : β}
    (hP : P b) (hstep : ∀ x ∈ l, ∀ c, P c → P (f c x)) : P (l.foldl f b) := by
  induction l generalizing b with
  | nil => exact hP
  | cons a l ih =>
    exact ih (hstep a (by simp) b hP) (fun x hx c hc => hstep x (by simp [hx]) c hc)

theorem pyInt_empty : pyInt "" = Option.none := by decide

theorem ne_empty_of_pyInt {s : String} {n : Int} (h : pyInt s = Option.some n) : s ≠ "" := by
  intro he
  rw [he, pyInt_empty] at h
  cases h

/-- A key is never equal to itself suffixed with `"_" ++ T`. -/
theorem self_ne_suffixed (f T : String) : f ≠ f ++ "_" ++ T := by
  intro h
  have hl := congrArg String.length h
  have h1 : ("_" : String).length = 1 := rfl
  rw [String.length_append, String.length_append, h1] at hl
  omega

/-! ## Key closure of the schema extraction (`_extract_mssg_value`) -/

/-- Every key written by the field loop is a schema field name of the
message type, bare or suffixed with `"_<messageType>"`. -/
theorem extractFields_keys {T : String} {raw : RawFields} {fields : List (String × Option String)}
    {d d' : EventDict} (h : extractFields T raw fields d = Option.some d') :
    ∀ k ∈ dictKeys d', k ∈ dictKeys d ∨
      ∃ f ∈ fields.map Prod.fst, k = f ∨ k = f ++ "_" ++ T := by
  induction fields generalizing d with
  | nil =>
    intro k hk
    rw [extractFields] at h
    cases h
    exact Or.inl hk
  | cons p rest ih =>
    obtain ⟨fieldname, conv⟩ := p
    intro k hk
    have step : ∀ v : FVal,
        extractFields T raw rest (dictInsertCollide d fieldname T v) = Option.some d' →
        k ∈ dictKeys d ∨ ∃ f ∈ ((fieldname, conv) :: rest).map Prod.fst,
          k = f ∨ k = f ++ "_" ++ T := by
      intro v hrec
      rcases ih hrec k hk with hin | ⟨f, hf, hor⟩
      · rcases mem_dictKeys_insertCollide hin with h' | h' | h'
        · exact Or.inl h'
        · exact Or.inr ⟨fieldname, by simp, Or.inl h'⟩
        · exact Or.inr ⟨fieldname, by simp, Or.inr h'⟩
      · refine Or.inr ⟨f, ?_, hor⟩
        simp at hf ⊢
        exact Or.inr hf
    rw [extractFields] at h
    split at h
    · cases h
      exact Or.inl hk
    · split at h
      · cases h
        exact Or.inl hk
      · split at h
        · split at h
          · split at h
            · cases h
            · exact step _ h
          · exact step _ h
        · exact step _ h

theorem dictContains_dictSet_false {α : Type} {d : Dict α} {k k0 : String} {v : α}
    (h : dictContains d k = false) (hne : k0 ≠ k) :
    dictContains (dictSet d k0 v) k = false := by
  unfold dictContains at h ⊢
  rw [dictGet_dictSet_ne d k0 k v hne]
  exact h

theorem dictContains_false_of_extractFields {T : String} {raw : RawFields}
    {fields : List (String × Option String)} {d' : EventDict}
    (h : extractFields T raw fields [] = Option.some d') (k : String)
    (hk : ¬ ∃ f ∈ fields.map Prod.fst, k = f ∨ k = f ++ "_" ++ T) :
    dictContains d' k = false := by
  refine dictContains_eq_false (fun hm => ?_)
  rcases extractFields_keys h k hm with h' | h'
  · simp [dictKeys] at h'
  · exact hk h'

/-- Unfolding helper: a successful `_extract_mssg_value` call means both
lookups succeeded and the field loop ran. -/
theorem extract_mssg_value_eq {T : String} {md : MsgDict} {c d' : EventDict}
    (h : extract_mssg_value T md c = Option.some d') :
    ∃ fs raw, dictGet FIELD_DEFS T = Option.some fs ∧ dictGet md T = Option.some raw ∧
      extractFields T raw fs c = Option.some d' := by
  unfold extract_mssg_value at h
  split at h
  · exact ⟨_, _, by assumption, by assumption, h⟩
  · cases h

theorem mem_dictKeys_buildCmdline {d d' : EventDict} (h : buildCmdline d = Option.some d')
    {k : String} (hk : k ∈ dictKeys d') : k ∈ dictKeys d ∨ k = "cmdline" := by
  unfold buildCmdline at h
  split at h
  · cases h
  · split at h
    · cases h
    · cases h
      rcases mem_dictKeys_dictSet hk with h' | h'
      · exact Or.inr h'
      · exact Or.inl h'

/-! ## Claims about the event assembler -/

/-- **C4** (code bug).  The claim says a schema-known message type with one
absent/empty field still contributes all its other present fields.  The
source instead executes `return` (not `continue`) at the first absent or
empty field, dropping every remaining field of that message type: on the
spec's own decode scenario, `SYSCALL` has no `success` field, so `pid`,
`ppid` and `exe` — all present with non-empty values — are missing from
the assembled event. -/
theorem C4_early_return_drops_sibling_fields :
    extract_event (unpack_auditd
      [[("SYSCALL", ["pid=100", "ppid=1", "exe=2F62696E2F6C73"])],
       [("EXECVE", ["argc=1", "a0=6C73"])]]) =
    Option.some ("SYSCALL_EXECVE",
      [("argc", FVal.int 1), ("a0", FVal.str "ls"), ("cmdline", FVal.str "ls")]) := by
  decide

/-- **C5** (code bug).  The claim (and the spec) require that a failing
integer conversion not abort assembly of the rest of the record.  The
source calls `int(value)` unguarded, so a non-numeric value for the
int-typed field `ppid` raises `ValueError` out of the assembler
(`Option.none`), losing every other field of the record. -/
theorem C5_int_conversion_failure_aborts_record :
    extract_event [("SYSCALL",
      [("success", Option.some "yes"), ("ppid", Option.some "xyz"),
       ("pid", Option.some "100")])] = Option.none := by
  decide

/-- **C8** (confirmed).  An int-typed field parses as an integer and is
normalized by `normInt`: the sentinel `4294967295` decodes to `-1` and
every other integer is returned unchanged.  Shown end-to-end on a `LOGIN`
record's `pid` field. -/
theorem C8_sentinel_normalization (raw : String) (n : Int)
    (hn : pyInt raw = Option.some n) (hne : raw ≠ "") :
    extract_event [("LOGIN", [("pid", Option.some raw)])] =
      Option.some ("LOGIN", [("pid", FVal.int (normInt n))])
    ∧ normInt 4294967295 = -1 ∧ (n ≠ 4294967295 → normInt n = n) := by
  refine ⟨?_, rfl, fun h => if_neg h⟩
  simp [extract_event, dictContains, dictGet, generalAssemble, extract_mssg_value,
    FIELD_DEFS, extractFields, dictInsertCollide, dictSet, hn, hne]

/-- Witness for `C8_sentinel_normalization`: the sentinel raw value
`"4294967295"` decodes to `-1`, and `"7"` decodes to `7`. -/
theorem C8_sentinel_normalization_witness :
    (extract_event [("LOGIN", [("pid", Option.some "4294967295")])] =
      Option.some ("LOGIN", [("pid", FVal.int (-1))]))
    ∧ (extract_event [("LOGIN", [("pid", Option.some "7")])] =
      Option.some ("LOGIN", [("pid", FVal.int 7)])) := by
  constructor
  · have h := C8_sentinel_normalization "4294967295" 4294967295 (by decide) (by decide)
    rw [h.1]
    decide
  · have h := C8_sentinel_normalization "7" 7 (by decide) (by decide)
    rw [h.1]
    decide

/-- **C3** (confirmed).  The field-collision rule is asymmetric.  Schema
path: `SYSCALL` (first writer of `pid`) keeps the bare name and the later
`LOGIN` value is stored under `pid_LOGIN`.  Non-schema path: two unknown
types both producing `y` merge raw with last-writer-wins and no
disambiguation. -/
theorem C3_asymmetric_collision_rule :
    (∀ (p1 v1 v2 : String) (m n1 n2 : Int),
      pyInt p1 = Option.some m → pyInt v1 = Option.some n1 → pyInt v2 = Option.some n2 →
      p1 ≠ "" → v1 ≠ "" → v2 ≠ "" →
      extract_event
        [("SYSCALL", [("success", Option.some "yes"), ("ppid", Option.some p1),
          ("pid", Option.some v1)]),
         ("LOGIN", [("pid", Option.some v2)])] =
      Option.some ("SYSCALL",
        [("success", FVal.str "yes"), ("ppid", FVal.int (normInt m)),
         ("pid", FVal.int (normInt n1)), ("pid_LOGIN", FVal.int (normInt n2))]))
    ∧ (∀ (T1 T2 w1 w2 : String),
      dictGet FIELD_DEFS T1 = Option.none → dictGet FIELD_DEFS T2 = Option.none →
      T1 ≠ T2 →
      extract_event [(T1, [("y", Option.some w1)]), (T2, [("y", Option.some w2)])] =
        Option.some (T1, [("y", FVal.str w2)])) := by
  constructor
  · intro p1 v1 v2 m n1 n2 hp hv1 hv2 hp1 hv1e hv2e
    simp [extract_event, dictContains, dictGet, generalAssemble, extract_mssg_value,
      FIELD_DEFS, extractFields, dictInsertCollide, dictSet, hp, hv1, hv2, hp1, hv1e, hv2e]
  · intro T1 T2 w1 w2 h1 h2 h12
    have hS1 : T1 ≠ "SYSCALL" := by
      intro e; rw [e] at h1; exact absurd h1 (by decide)
    have hE1 : T1 ≠ "EXECVE" := by
      intro e; rw [e] at h1; exact absurd h1 (by decide)
    have hS2 : T2 ≠ "SYSCALL" := by
      intro e; rw [e] at h2; exact absurd h2 (by decide)
    have hE2 : T2 ≠ "EXECVE" := by
      intro e; rw [e] at h2; exact absurd h2 (by decide)
    have hc1 : dictContains FIELD_DEFS T1 = false := by
      unfold dictContains; rw [h1]; rfl
    have hc2 : dictContains FIELD_DEFS T2 = false := by
      unfold dictContains; rw [h2]; rfl
    rw [extract_event]
    rw [if_neg (by
      intro hand
      have hA := hand.1
      simp [dictContains, dictGet, hS1, hS2] at hA)]
    simp only [generalAssemble, List.foldlM_cons, List.foldlM_nil, hc1, hc2]
    simp [dictUpdateRaw, dictSet]

/-- Witness for `C3_asymmetric_collision_rule` at concrete inputs. -/
theorem C3_asymmetric_collision_rule_witness :
    (extract_event
        [("SYSCALL", [("success", Option.some "yes"), ("ppid", Option.some "1"),
          ("pid", Option.some "42")]),
         ("LOGIN", [("pid", Option.some "99")])] =
      Option.some ("SYSCALL",
        [("success", FVal.str "yes"), ("ppid", FVal.int 1),
         ("pid", FVal.int 42), ("pid_LOGIN", FVal.int 99)]))
    ∧ (extract_event [("FOO", [("y", Option.some "v1")]), ("BAR", [("y", Option.some "v2")])] =
      Option.some ("FOO", [("y", FVal.str "v2")])) := by
  constructor
  · have h := C3_asymmetric_collision_rule.1 "1" "42" "99" 1 42 99
      (by decide) (by decide) (by decide) (by decide) (by decide) (by decide)
    rw [h]
    decide
  · exact C3_asymmetric_collision_rule.2 "FOO" "BAR" "v1" "v2" (by decide) (by decide)
      (by decide)

/-- **C2** (corrected), counterexample.  With `argc=5` and all of `a0..a4`
present, the claim demands `cmdline = "/bin/sh -c ls -l /tmp"` (the values
of `a0..a4` joined).  The code only ever extracts the schema fields
`a0,a1,a2`, so `a3`/`a4` contribute empty strings: the actual cmdline is
`"/bin/sh -c ls  "`. -/
theorem C2_cmdline_counterexample :
    (extract_event [("SYSCALL", [("success", Option.some "yes")]),
      ("EXECVE", [("argc", Option.some "5"), ("a0", Option.some "/bin/sh"),
        ("a1", Option.some "-c"), ("a2", Option.some "ls"), ("a3", Option.some "-l"),
        ("a4", Option.some "/tmp")])]).bind (fun r => dictGet r.2 "cmdline") =
      Option.some (FVal.str "/bin/sh -c ls  ")
    ∧ pyJoin " " ["/bin/sh", "-c", "ls", "-l", "/tmp"] = "/bin/sh -c ls -l /tmp"
    ∧ ("/bin/sh -c ls  " : String) ≠ "/bin/sh -c ls -l /tmp" := by
  decide

/-- **C2** (corrected, amended).  For a grouped record with both `SYSCALL`
and `EXECVE`: (1) the assembled event type is always `"SYSCALL_EXECVE"`;
(2) when EXECVE carries `argc` parsing to 3 and non-empty `a0,a1,a2`,
`cmdline` is their values joined with single spaces.  (Indices ≥ 3 are not
schema fields and contribute `""`; extraction stops at the first
absent/empty EXECVE field, so a missing `argc` yields an empty `cmdline`
even when `a0` is present.) -/
theorem C2_composite_eventtype_cmdline :
    (∀ (md : MsgDict) (r : String × EventDict),
      dictContains md "SYSCALL" = true → dictContains md "EXECVE" = true →
      extract_event md = Option.some r → r.1 = "SYSCALL_EXECVE")
    ∧ (∀ (sys : RawFields) (sa v0 v1 v2 : String) (r : String × EventDict),
      pyInt sa = Option.some 3 → v0 ≠ "" → v1 ≠ "" → v2 ≠ "" →
      extract_event [("SYSCALL", sys),
        ("EXECVE", [("argc", Option.some sa), ("a0", Option.some v0),
          ("a1", Option.some v1), ("a2", Option.some v2)])] = Option.some r →
      r.1 = "SYSCALL_EXECVE" ∧
      dictGet r.2 "cmdline" = Option.some (FVal.str (pyJoin " " [v0, v1, v2]))) := by
  constructor
  · intro md r h1 h2 he
    rw [extract_event.eq_def, if_pos ⟨h1, h2⟩] at he
    rcases hc : compositeAssemble md with _ | d
    · rw [hc] at he; cases he
    · rw [hc] at he
      injection he with he2
      rw [← he2]
  · intro sys sa v0 v1 v2 r ha h0 h1 h2 he
    have hsa : sa ≠ "" := ne_empty_of_pyInt ha
    rw [extract_event, if_pos (by constructor <;> simp [dictContains, dictGet])] at he
    rcases hca : compositeAssemble [("SYSCALL", sys),
        ("EXECVE", [("argc", Option.some sa), ("a0", Option.some v0),
          ("a1", Option.some v1), ("a2", Option.some v2)])] with _ | d6
    · rw [hca] at he; cases he
    · rw [hca] at he
      simp only [Option.map] at he
      rw [compositeAssemble] at hca
      simp only [List.foldlM_cons, List.foldlM_nil] at hca
      rcases hs : extract_mssg_value "SYSCALL" [("SYSCALL", sys),
        ("EXECVE", [("argc", Option.some sa), ("a0", Option.some v0),
          ("a1", Option.some v1), ("a2", Option.some v2)])] [] with _ | d1
      · rw [hs] at hca
        simp [dictContains, dictGet] at hca
      · rw [hs] at hca
        obtain ⟨fs, raw, hfs, hraw, hef⟩ := extract_mssg_value_eq hs
        have hfseq : fs = [("success", Option.none), ("ppid", Option.some "int"),
            ("pid", Option.some "int"), ("auid", Option.some "int"), ("uid", Option.some "int"),
            ("gid", Option.some "int"), ("euid", Option.some "int"), ("egid", Option.some "int"),
            ("ses", Option.some "int"), ("exe", Option.none), ("com", Option.none)] := by
          have h' := hfs
          rw [show dictGet FIELD_DEFS "SYSCALL" = Option.some [("success", Option.none),
            ("ppid", Option.some "int"), ("pid", Option.some "int"), ("auid", Option.some "int"),
            ("uid", Option.some "int"), ("gid", Option.some "int"), ("euid", Option.some "int"),
            ("egid", Option.some "int"), ("ses", Option.some "int"), ("exe", Option.none),
            ("com", Option.none)] from rfl] at h'
          exact (Option.some_inj.mp h').symm
        rw [hfseq] at hef
        have k1 : dictContains d1 "argc" = false :=
          dictContains_false_of_extractFields hef "argc" (by decide)
        have k2 : dictContains d1 "a0" = false :=
          dictContains_false_of_extractFields hef "a0" (by decide)
        have k3 : dictContains d1 "a1" = false :=
          dictContains_false_of_extractFields hef "a1" (by decide)
        have k4 : dictContains d1 "a2" = false :=
          dictContains_false_of_extractFields hef "a2" (by decide)
        have k1' : (dictGet d1 "argc").isSome = false := k1
        have k2' : (dictGet d1 "a0").isSome = false := k2
        have k3' : (dictGet d1 "a1").isSome = false := k3
        have k4' : (dictGet d1 "a2").isSome = false := k4
        have hr0 : List.range 3 = [0, 1, 2] := rfl
        have ha0 : ("a" ++ toString (0 : Nat)) = "a0" := rfl
        have ha1 : ("a" ++ toString (1 : Nat)) = "a1" := rfl
        have ha2 : ("a" ++ toString (2 : Nat)) = "a2" := rfl
        simp [dictContains, dictGet, extract_mssg_value, FIELD_DEFS, extractFields,
          dictInsertCollide, buildCmdline, pyIntOfFVal, fvalAsStr, normInt,
          dictGet_dictSet_self, dictGet_dictSet_ne, hr0, ha0, ha1, ha2, List.mapM.loop,
          Option.getD, k1', k2', k3', k4', ha, hsa, h0, h1, h2] at hca
        injection he with he2
        subst he2
        refine ⟨rfl, ?_⟩
        rw [← hca]
        exact dictGet_dictSet_self _ _ _

/-- Witness for `C2_composite_eventtype_cmdline` at the spec's own
scenario (`argc=3, a0="/bin/sh", a1="-c", a2="ls"`). -/
theorem C2_composite_eventtype_cmdline_witness :
    (("SYSCALL_EXECVE",
      ([("success", FVal.str "yes"), ("argc", FVal.int 3), ("a0", FVal.str "/bin/sh"),
        ("a1", FVal.str "-c"), ("a2", FVal.str "ls"),
        ("cmdline", FVal.str "/bin/sh -c ls")] : EventDict)) :
        String × EventDict).1 = "SYSCALL_EXECVE"
    ∧ dictGet ([("success", FVal.str "yes"), ("argc", FVal.int 3), ("a0", FVal.str "/bin/sh"),
        ("a1", FVal.str "-c"), ("a2", FVal.str "ls"),
        ("cmdline", FVal.str "/bin/sh -c ls")] : EventDict) "cmdline" =
      Option.some (FVal.str (pyJoin " " ["/bin/sh", "-c", "ls"])) :=
  C2_composite_eventtype_cmdline.2 [("success", Option.some "yes")] "3" "/bin/sh" "-c" "ls" _
    (by decide) (by decide) (by decide) (by decide) (by decide)

/-- **C10** (confirmed).  When every message type of the record is in the
schema, every key of the assembled event is either the derived `cmdline`
or a schema field of one of the record's types, bare or suffixed with
`"_<type>"`: input keys outside the schema are silently dropped. -/
theorem C10_output_keys_schema_closed (md : MsgDict) (t : String) (d : EventDict)
    (hschema : ∀ T ∈ dictKeys md, dictContains FIELD_DEFS T = true)
    (he : extract_event md = Option.some (t, d)) :
    ∀ k ∈ dictKeys d, keyClosed md k := by
  have hstep : ∀ (T : String) (c c' : EventDict),
      (∀ k ∈ dictKeys c, keyClosed md k) →
      extract_mssg_value T md c = Option.some c' →
      ∀ k ∈ dictKeys c', keyClosed md k := by
    intro T c c' hc hmv k hk
    unfold keyClosed
    obtain ⟨fs, raw, hfs, hraw, hef⟩ := extract_mssg_value_eq hmv
    rcases extractFields_keys hef k hk with hin | ⟨f, hf, hor⟩
    · exact hc k hin
    · refine Or.inr ⟨T, mem_dictKeys_of_dictGet hraw, fs, hfs, ?_⟩
      rcases hor with h | h
      · exact Or.inl (h ▸ hf)
      · exact Or.inr ⟨f, hf, h⟩
  rw [extract_event.eq_def] at he
  by_cases hg : dictContains md "SYSCALL" = true ∧ dictContains md "EXECVE" = true
  · rw [if_pos hg] at he
    rcases hca : compositeAssemble md with _ | d0
    · rw [hca] at he; cases he
    · rw [hca] at he
      injection he with he2
      cases he2
      rw [compositeAssemble] at hca
      refine foldlM_option_inv (fun d' => ∀ k ∈ dictKeys d', keyClosed md k) hca
        (by intro k hk; simp [dictKeys] at hk) ?_
      intro T hT c c' hc hs
      split at hs
      · cases hs
        exact hc
      · rcases hmv : extract_mssg_value T md c with _ | d''
        · rw [hmv] at hs; cases hs
        · rw [hmv] at hs
          simp only [Option.bind] at hs
          split at hs
          · intro k hk
            rcases mem_dictKeys_buildCmdline hs hk with h' | h'
            · exact hstep T c d'' hc hmv k h'
            · exact Or.inl h'
          · cases hs
            exact hstep T c _ hc hmv
  · rw [if_neg hg] at he
    match md, hschema, he with
    | [], _, he => cases he
    | p :: rest, hschema, he =>
      rcases hga : generalAssemble (p :: rest) with _ | d0
      · rw [hga] at he; cases he
      · rw [hga] at he
        injection he with he2
        cases he2
        rw [generalAssemble] at hga
        refine foldlM_option_inv (fun d' => ∀ k ∈ dictKeys d', keyClosed (p :: rest) k) hga
          (by intro k hk; simp [dictKeys] at hk) ?_
        intro x hx c c' hc hs
        split at hs
        · exact hstep x.1 c c' hc hs
        · exfalso
          have hmem : x.1 ∈ dictKeys (p :: rest) := List.mem_map.mpr ⟨x, hx, rfl⟩
          simp [hschema x.1 hmem] at *

/-- Witness for `C10_output_keys_schema_closed` on a one-type record whose
input also carries a non-schema key `extra`: the output key `cwd` is
schema-derived (and `extra` is absent from the assembled event). -/
theorem C10_output_keys_schema_closed_witness :
    keyClosed [("CWD", [("cwd", Option.some "/root"), ("extra", Option.some "x")])] "cwd" :=
  C10_output_keys_schema_closed
    [("CWD", [("cwd", Option.some "/root"), ("extra", Option.some "x")])] "CWD"
    [("cwd", FVal.str "/root")] (by decide) (by decide) "cwd" (by decide)

/-- **C6** (corrected), counterexample.  A line whose header matches
`type=` but that contains no `": "` separator makes
`_parse_audit_message` index `audit_message[1]`, which raises
`IndexError` (`Option.none`): the parser does not return for every input
line. -/
theorem C6_parse_raises_counterexample :
    parse_audit_message "type=X" = Option.none := by decide

/-- **C6** (corrected, amended).  (1) When the header does not match
`type=...`, `_parse_audit_message` returns the empty list, not a crash;
(2) when the line does contain a `": "` separator it returns without
raising; (3) `_extract_timestamp` returns `""` when the header has no
`msg=audit(...)` match (and, being built from total operations, never
raises). -/
theorem C6_parse_failure_behaviour :
    (∀ s : String, reMatchType (headerOf s) = Option.none →
      parse_audit_message s = Option.some [])
    ∧ (∀ s : String, 2 ≤ (pySplit (pyRstrip s) ": ").length →
      (parse_audit_message s).isSome = true)
    ∧ (∀ s : String, reMatchAudit (headerOf s) = Option.none →
      extract_timestamp s = "") := by
  refine ⟨?_, ?_, ?_⟩
  · intro s h
    unfold parse_audit_message
    rw [h]
  · intro s hlen
    unfold parse_audit_message
    rcases h : reMatchType (headerOf s) with _ | t
    · rfl
    · rcases hg : (pySplit (pyRstrip s) ": ").get? 1 with _ | body
      · exfalso
        rw [List.get?_eq_none] at hg
        omega
      · rfl
  · intro s h
    unfold extract_timestamp
    rw [h]

/-- Witness for `C6_parse_failure_behaviour` at concrete lines. -/
theorem C6_parse_failure_behaviour_witness :
    parse_audit_message "no header here" = Option.some []
    ∧ (parse_audit_message "type=SYSCALL msg=audit(1:2): pid=1").isSome = true
    ∧ extract_timestamp "hello world" = "" :=
  ⟨C6_parse_failure_behaviour.1 "no header here" (by decide),
   C6_parse_failure_behaviour.2.1 "type=SYSCALL msg=audit(1:2): pid=1" (by decide),
   C6_parse_failure_behaviour.2.2 "hello world" (by decide)⟩

/-! ## Process-tree builder: loop-counter lemmas and termination -/

theorem ancStep_count (audit : List PRow) (D : Nat) (st : WalkSt) (x : Option Int) :
    (ancStep audit D st x).count = st.count + 1 ∨ (ancStep audit D st x).count = D + 1 := by
  cases x with
  | none => exact Or.inr rfl
  | some ap => exact Or.inl rfl

theorem ancFold_count_ge (audit : List PRow) (D : Nat) (c : Nat) :
    ∀ (l : List (Option Int)) (st : WalkSt), c ≤ D + 1 → c ≤ st.count →
    c ≤ ((l.foldl (ancStep audit D) st).count)
  | [], st, _, h2 => h2
  | x :: l, st, h1, h2 => by
    rw [List.foldl_cons]
    refine ancFold_count_ge audit D c l _ h1 ?_
    rcases ancStep_count audit D st x with h | h <;> omega

theorem ancFold_count_succ (audit : List PRow) (D : Nat) (l : List (Option Int))
    (st : WalkSt) (hl : l ≠ []) (hc : st.count ≤ D) :
    st.count + 1 ≤ ((l.foldl (ancStep audit D) st).count) := by
  cases l with
  | nil => exact absurd rfl hl
  | cons x l =>
    rw [List.foldl_cons]
    refine ancFold_count_ge audit D (st.count + 1) l _ (by omega) ?_
    rcases ancStep_count audit D st x with h | h <;> omega

theorem ancBody_count (audit : List PRow) (D : Nat) (st : WalkSt) (hc : st.count ≤ D) :
    st.count + 1 ≤ (ancBody audit D st).count := by
  unfold ancBody
  split
  · simp
    omega
  · refine ancFold_count_succ audit D _ st ?_ hc
    simp
    intro h
    simp [h] at *

theorem ancWhile_succ (audit : List PRow) (D : Nat) :
    ∀ (f : Nat) (st : WalkSt), D + 1 ≤ st.count + f →
    ancWhile audit D (f + 1) st = ancWhile audit D f st
  | 0, st, h => by
    unfold ancWhile
    rw [if_neg (by omega)]
  | f + 1, st, h => by
    by_cases hc : st.count ≤ D
    · conv_lhs => rw [ancWhile]
      conv_rhs => rw [ancWhile]
      rw [if_pos hc, if_pos hc]
      exact ancWhile_succ audit D f (ancBody audit D st)
        (by have := ancBody_count audit D st hc; omega)
    · conv_lhs => rw [ancWhile]
      conv_rhs => rw [ancWhile]
      rw [if_neg hc, if_neg hc]

theorem ancWhile_add (audit : List PRow) (D : Nat) (k : Nat) (f : Nat) (st : WalkSt)
    (h : D + 1 ≤ st.count + f) : ancWhile audit D (f + k) st = ancWhile audit D f st := by
  induction k with
  | zero => rfl
  | succ k ih =>
    rw [show f + (k + 1) = (f + k) + 1 by omega, ancWhile_succ audit D (f + k) st (by omega), ih]

theorem descFold_none (audit : List PRow) (D : Nat) :
    ∀ (l : List (Option Int)), l.foldl (descStep audit D) Option.none = Option.none
  | [] => rfl
  | x :: l => by
    rw [List.foldl_cons]
    exact descFold_none audit D l

theorem descStep_count (audit : List PRow) (D : Nat) (st st' : WalkSt) (x : Option Int)
    (h : descStep audit D (Option.some st) x = Option.some st') :
    st'.count = st.count + 1 := by
  cases x with
  | none => cases h
  | some dp => cases h; rfl

theorem descFold_count_ge (audit : List PRow) (D : Nat) (c : Nat) :
    ∀ (l : List (Option Int)) (st st' : WalkSt), c ≤ st.count →
    l.foldl (descStep audit D) (Option.some st) = Option.some st' → c ≤ st'.count
  | [], st, st', h2, hf => by cases hf; exact h2
  | x :: l, st, st', h2, hf => by
    rw [List.foldl_cons] at hf
    rcases hx : descStep audit D (Option.some st) x with _ | st1
    · rw [hx, descFold_none] at hf; cases hf
    · rw [hx] at hf
      refine descFold_count_ge audit D c l st1 st' ?_ hf
      have := descStep_count audit D st st1 x hx
      omega

theorem descBody_count (audit : List PRow) (D : Nat) (st st' : WalkSt) (hc : st.count ≤ D)
    (hb : descBody audit D st = Option.some st') : st.count + 1 ≤ st'.count := by
  unfold descBody at hb
  split at hb
  · cases hb
    simp
    omega
  · rcases hl : st.frame.map (fun r => r.pid) with _ | ⟨x, l⟩
    · exfalso
      have hnil : st.frame = [] := List.map_eq_nil_iff.mp hl
      simp [hnil] at *
    · rw [hl, List.foldl_cons] at hb
      rcases hx : descStep audit D (Option.some st) x with _ | st1
      · rw [hx, descFold_none] at hb; cases hb
      · rw [hx] at hb
        refine descFold_count_ge audit D (st.count + 1) l st1 st' ?_ hb
        have := descStep_count audit D st st1 x hx
        omega

theorem descWhile_succ (audit : List PRow) (D : Nat) :
    ∀ (f : Nat) (st : WalkSt), D + 1 ≤ st.count + f →
    descWhile audit D (f + 1) st = descWhile audit D f st
  | 0, st, h => by
    unfold descWhile
    rw [if_neg (by omega)]
  | f + 1, st, h => by
    by_cases hc : st.count ≤ D
    · conv_lhs => rw [descWhile]
      conv_rhs => rw [descWhile]
      rw [if_pos hc, if_pos hc]
      rcases hb : descBody audit D st with _ | st1
      · rfl
      · exact descWhile_succ audit D f st1
          (by have := descBody_count audit D st st1 hc hb; omega)
    · conv_lhs => rw [descWhile]
      conv_rhs => rw [descWhile]
      rw [if_neg hc, if_neg hc]

theorem descWhile_add (audit : List PRow) (D : Nat) (k : Nat) (f : Nat) (st : WalkSt)
    (h : D + 1 ≤ st.count + f) : descWhile audit D (f + k) st = descWhile audit D f st := by
  induction k with
  | zero => rfl
  | succ k ih =>
    rw [show f + (k + 1) = (f + k) + 1 by omega, descWhile_succ audit D (f + k) st (by omega),
      ih]

/-- Pointwise-equal step functions give equal `Option`-monadic folds. -/
theorem foldlM_option_ext {α β : Type} {f g : β → α → Option β} :
    ∀ (l : List α) (b : β), (∀ c x, x ∈ l → f c x = g c x) →
    List.foldlM f b l = List.foldlM g b l
  | [], b, _ => rfl
  | a :: l, b, h => by
    rw [List.foldlM_cons, List.foldlM_cons, h b a (by simp)]
    rcases g b a with _ | c
    · rfl
    · exact foldlM_option_ext l c (fun c' x hx => h c' x (by simp [hx]))

/-- Pointwise-equal step functions give equal folds. -/
theorem foldl_ext_gen {α β : Type} {f g : β → α → β} :
    ∀ (l : List α) (b : β), (∀ c x, x ∈ l → f c x = g c x) →
    l.foldl f b = l.foldl g b
  | [], b, _ => rfl
  | a :: l, b, h => by
    rw [List.foldl_cons, List.foldl_cons, h b a (by simp)]
    exact foldl_ext_gen l _ (fun c' x hx => h c' x (by simp [hx]))

theorem descPass_fuel (audit : List PRow) (D k : Nat) (procsRows : List PRow)
    (tree0 : List PRow) :
    descPass audit D (D + k) procsRows tree0 = descPass audit D D procsRows tree0 := by
  unfold descPass
  refine foldlM_option_ext procsRows tree0 ?_
  intro c proc _
  cases proc.pid with
  | none => rfl
  | some pp =>
    simp only
    rw [descWhile_add audit D k D _ (by show D + 1 ≤ 1 + D; omega)]

theorem seedStep_fuel (audit : List PRow) (D k : Nat) (procsRows : List PRow)
    (ot : Option (List PRow)) (procPid : Option Int) :
    seedStep audit D (D + k) procsRows ot procPid = seedStep audit D D procsRows ot procPid := by
  unfold seedStep
  cases ot with
  | none => rfl
  | some tree =>
    cases procPid with
    | none => rfl
    | some pp =>
      simp only
      rw [ancWhile_add audit D k D _ (by show D + 1 ≤ 1 + D; omega), descPass_fuel]

/-- **Termination of the tree builder**: every while-loop stabilizes after
at most `D` iterations, for any input whatsoever — additional fuel never
changes the result. -/
theorem seedFold_fuel (audit : List PRow) (D k : Nat) (procsRows : List PRow) :
    seedFold audit D (D + k) procsRows = seedFold audit D D procsRows := by
  unfold seedFold
  exact foldl_ext_gen _ _ (fun c x _ => seedStep_fuel audit D k procsRows c x)

/-- **Termination of the tree builder**: every while-loop stabilizes after
at most `D` iterations, for any input whatsoever — additional fuel never
changes the result. -/
theorem genProcessTreeFuel_stable (audit : List PRow) (D : Nat) (ps : Option ProcTable)
    (k : Nat) : genProcessTreeFuel audit D ps (D + k) = genProcessTreeFuel audit D ps D := by
  unfold genProcessTreeFuel
  simp only [seedFold_fuel]

/-! ## Process-tree builder: row invariants through the traversal -/

theorem ancFold_tree (audit : List PRow) (D : Nat) (P : PRow → Prop)
    (HparentTag : ∀ (c : Nat) (r : PRow), 1 ≤ c → c ≤ D + audit.length → r ∈ audit →
      P (tagRow "parent" c r)) :
    ∀ (l : List (Option Int)) (st : WalkSt), (∀ r ∈ st.tree, P r) →
    st.count + l.length ≤ D + audit.length → l.length ≤ audit.length →
    ∀ r ∈ (l.foldl (ancStep audit D) st).tree, P r
  | [], st, htree, _, _, r, hr => htree r hr
  | x :: l, st, htree, hcnt, hlen, r, hr => by
    simp only [List.length_cons] at hcnt hlen
    rw [List.foldl_cons] at hr
    cases x with
    | none =>
      refine ancFold_tree audit D P HparentTag l { st with count := D + 1 } htree ?_ ?_ r hr
      · show D + 1 + l.length ≤ D + audit.length
        omega
      · omega
    | some ap =>
      refine ancFold_tree audit D P HparentTag l
        { frame := (lookupByPid audit ap).map (tagRow "parent" (st.count + 1)),
          count := st.count + 1,
          tree := st.tree ++ (lookupByPid audit ap).map (tagRow "parent" (st.count + 1)) }
        ?_ ?_ ?_ r hr
      · intro r' hr'
        rcases List.mem_append.mp hr' with h | h
        · exact htree r' h
        · obtain ⟨r0, hr0, rfl⟩ := List.mem_map.mp h
          exact HparentTag (st.count + 1) r0 (by omega) (by omega)
            (List.mem_filter.mp hr0).1
      · show st.count + 1 + l.length ≤ D + audit.length
        omega
      · omega

theorem ancFold_frame (audit : List PRow) (D : Nat) :
    ∀ (l : List (Option Int)) (st : WalkSt), st.frame.length ≤ audit.length →
    (l.foldl (ancStep audit D) st).frame.length ≤ audit.length
  | [], st, h => h
  | x :: l, st, h => by
    rw [List.foldl_cons]
    cases x with
    | none => exact ancFold_frame audit D l _ h
    | some ap =>
      refine ancFold_frame audit D l _ ?_
      show ((lookupByPid audit ap).map (tagRow "parent" (st.count + 1))).length ≤ audit.length
      rw [List.length_map]
      exact List.length_filter_le _ _

theorem ancBody_tree (audit : List PRow) (D : Nat) (P : PRow → Prop)
    (HparentTag : ∀ (c : Nat) (r : PRow), 1 ≤ c → c ≤ D + audit.length → r ∈ audit →
      P (tagRow "parent" c r))
    (st : WalkSt) (hc : st.count ≤ D) (hf : st.frame.length ≤ audit.length)
    (htree : ∀ r ∈ st.tree, P r) : ∀ r ∈ (ancBody audit D st).tree, P r := by
  unfold ancBody
  split
  · exact htree
  · refine ancFold_tree audit D P HparentTag _ st htree ?_ ?_
    · rw [List.length_map]
      omega
    · rw [List.length_map]
      exact hf

theorem ancBody_frame (audit : List PRow) (D : Nat) (st : WalkSt)
    (hf : st.frame.length ≤ audit.length) :
    (ancBody audit D st).frame.length ≤ audit.length := by
  unfold ancBody
  split
  · exact hf
  · exact ancFold_frame audit D _ st hf

theorem ancWhile_tree (audit : List PRow) (D : Nat) (P : PRow → Prop)
    (HparentTag : ∀ (c : Nat) (r : PRow), 1 ≤ c → c ≤ D + audit.length → r ∈ audit →
      P (tagRow "parent" c r)) :
    ∀ (f : Nat) (st : WalkSt), (∀ r ∈ st.tree, P r) → st.frame.length ≤ audit.length →
    ∀ r ∈ (ancWhile audit D f st).tree, P r
  | 0, st, htree, _ => htree
  | f + 1, st, htree, hf => by
    rw [ancWhile]
    split
    · next hc =>
        exact ancWhile_tree audit D P HparentTag f _
          (ancBody_tree audit D P HparentTag st hc hf htree)
          (ancBody_frame audit D st hf)
    · exact htree

theorem descFold_tree (audit : List PRow) (D : Nat) (P : PRow → Prop)
    (HchildTag : ∀ (c : Nat) (r : PRow), 2 ≤ c → c ≤ D + audit.length → r ∈ audit →
      P (tagRow "child" c r)) :
    ∀ (l : List (Option Int)) (st st' : WalkSt), (∀ r ∈ st.tree, P r) →
    st.count + l.length ≤ D + audit.length → l.length ≤ audit.length → 1 ≤ st.count →
    l.foldl (descStep audit D) (Option.some st) = Option.some st' →
    ∀ r ∈ st'.tree, P r
  | [], st, st', htree, _, _, _, hf => by cases hf; exact htree
  | x :: l, st, st', htree, hcnt, hlen, hone, hf => by
    simp only [List.length_cons] at hcnt hlen
    rw [List.foldl_cons] at hf
    cases x with
    | none => rw [show descStep audit D (Option.some st) Option.none = Option.none from rfl,
        descFold_none] at hf; cases hf
    | some dp =>
      refine descFold_tree audit D P HchildTag l
        { frame := (lookupByPpid audit dp).map (tagRow "child" (st.count + 1)),
          count := st.count + 1,
          tree := st.tree ++ (lookupByPpid audit dp).map (tagRow "child" (st.count + 1)) }
        st' ?_ ?_ ?_ ?_ hf
      · intro r' hr'
        rcases List.mem_append.mp hr' with h | h
        · exact htree r' h
        · obtain ⟨r0, hr0, rfl⟩ := List.mem_map.mp h
          exact HchildTag (st.count + 1) r0 (by omega) (by omega)
            (List.mem_filter.mp hr0).1
      · show st.count + 1 + l.length ≤ D + audit.length
        omega
      · omega
      · show 1 ≤ st.count + 1
        omega

theorem descFold_frame (audit : List PRow) (D : Nat) :
    ∀ (l : List (Option Int)) (st st' : WalkSt), st.frame.length ≤ audit.length →
    l.foldl (descStep audit D) (Option.some st) = Option.some st' →
    st'.frame.length ≤ audit.length
  | [], st, st', h, hf => by cases hf; exact h
  | x :: l, st, st', h, hf => by
    rw [List.foldl_cons] at hf
    cases x with
    | none => rw [show descStep audit D (Option.some st) Option.none = Option.none from rfl,
        descFold_none] at hf; cases hf
    | some dp =>
      refine descFold_frame audit D l _ st' ?_ hf
      show ((lookupByPpid audit dp).map (tagRow "child" (st.count + 1))).length ≤ audit.length
      rw [List.length_map]
      exact List.length_filter_le _ _

theorem descBody_tree (audit : List PRow) (D : Nat) (P : PRow → Prop)
    (HchildTag : ∀ (c : Nat) (r : PRow), 2 ≤ c → c ≤ D + audit.length → r ∈ audit →
      P (tagRow "child" c r))
    (st st' : WalkSt) (hc : st.count ≤ D) (hf : st.frame.length ≤ audit.length)
    (hone : 1 ≤ st.count) (htree : ∀ r ∈ st.tree, P r)
    (hb : descBody audit D st = Option.some st') : ∀ r ∈ st'.tree, P r := by
  unfold descBody at hb
  split at hb
  · cases hb; exact htree
  · refine descFold_tree audit D P HchildTag _ st st' htree ?_ ?_ hone hb
    · rw [List.length_map]
      omega
    · rw [List.length_map]
      exact hf

theorem descBody_frame (audit : List PRow) (D : Nat) (st st' : WalkSt)
    (hf : st.frame.length ≤ audit.length)
    (hb : descBody audit D st = Option.some st') : st'.frame.length ≤ audit.length := by
  unfold descBody at hb
  split at hb
  · cases hb; exact hf
  · exact descFold_frame audit D _ st st' hf hb

theorem descBody_count_one (audit : List PRow) (D : Nat) (st st' : WalkSt)
    (hone : 1 ≤ st.count)
    (hb : descBody audit D st = Option.some st') : 1 ≤ st'.count := by
  unfold descBody at hb
  split at hb
  · cases hb; show 1 ≤ D + 1; omega
  · exact descFold_count_ge audit D 1 _ st st' hone hb

theorem descWhile_tree (audit : List PRow) (D : Nat) (P : PRow → Prop)
    (HchildTag : ∀ (c : Nat) (r : PRow), 2 ≤ c → c ≤ D + audit.length → r ∈ audit →
      P (tagRow "child" c r)) :
    ∀ (f : Nat) (st st' : WalkSt), (∀ r ∈ st.tree, P r) →
    st.frame.length ≤ audit.length → 1 ≤ st.count →
    descWhile audit D f st = Option.some st' → ∀ r ∈ st'.tree, P r
  | 0, st, st', htree, _, _, hw => by cases hw; exact htree
  | f + 1, st, st', htree, hf, hone, hw => by
    rw [descWhile] at hw
    split at hw
    · next hc =>
        rcases hb : descBody audit D st with _ | st1
        · rw [hb] at hw; cases hw
        · rw [hb] at hw
          exact descWhile_tree audit D P HchildTag f st1 st'
            (descBody_tree audit D P HchildTag st st1 hc hf hone htree hb)
            (descBody_frame audit D st st1 hf hb)
            (descBody_count_one audit D st st1 hone hb) hw
    · cases hw; exact htree

theorem descPass_tree (audit : List PRow) (D : Nat) (P : PRow → Prop)
    (HchildTag : ∀ (c : Nat) (r : PRow), 2 ≤ c → c ≤ D + audit.length → r ∈ audit →
      P (tagRow "child" c r))
    (fuel : Nat) (procsRows : List PRow)
    (Hchild1 : ∀ (proc r : PRow), proc ∈ procsRows → r ∈ audit →
      proc.timeGenerated < r.timeGenerated → r.ppid = proc.pid → P (tagRow "child" 1 r))
    (tree0 tree' : List PRow) (h0 : ∀ r ∈ tree0, P r)
    (hp : descPass audit D fuel procsRows tree0 = Option.some tree') :
    ∀ r ∈ tree', P r := by
  unfold descPass at hp
  refine foldlM_option_inv (fun tr => ∀ r ∈ tr, P r) hp h0 ?_
  intro proc hproc c c' hc hstep
  split at hstep
  · cases hstep
  · next pp hpid =>
      rcases hw : descWhile audit D fuel
          { frame := gen1Children audit proc pp, count := 1,
            tree := c ++ gen1Children audit proc pp } with _ | stw
      · rw [hw] at hstep; cases hstep
      · rw [hw] at hstep
        cases hstep
        refine descWhile_tree audit D P HchildTag fuel _ stw ?_ ?_ (by show 1 ≤ 1; omega) hw
        · intro r' hr'
          rcases List.mem_append.mp hr' with h | h
          · exact hc r' h
          · obtain ⟨r0, hr0, rfl⟩ := List.mem_map.mp h
            have h1 := List.mem_filter.mp hr0
            have h2 := List.mem_filter.mp h1.1
            refine Hchild1 proc r0 hproc h2.1 (of_decide_eq_true h2.2) ?_
            rw [hpid]
            simpa using h1.2
        · show (gen1Children audit proc pp).length ≤ audit.length
          unfold gen1Children
          rw [List.length_map]
          exact Nat.le_trans (List.length_filter_le _ _) (List.length_filter_le _ _)

/-- Membership in the insertion sort result. -/
theorem mem_insertByTime {x r : PRow} : ∀ {l : List PRow},
    x ∈ insertByTime r l → x = r ∨ x ∈ l
  | [], h => by simpa [insertByTime] using h
  | y :: l, h => by
    unfold insertByTime at h
    split at h
    · rcases List.mem_cons.mp h with h' | h'
      · exact Or.inr (by simp [h'])
      · rcases mem_insertByTime h' with h'' | h''
        · exact Or.inl h''
        · exact Or.inr (by simp [h''])
    · rcases List.mem_cons.mp h with h' | h'
      · exact Or.inl h'
      · exact Or.inr h'

theorem mem_sortByTime {x : PRow} : ∀ {l : List PRow}, x ∈ sortByTime l → x ∈ l
  | [], h => h
  | y :: l, h => by
    unfold sortByTime at h
    rw [List.foldr_cons] at h
    rcases mem_insertByTime h with h' | h'
    · simp [h']
    · exact List.mem_cons.mpr (Or.inr (mem_sortByTime h'))

theorem mem_dropDuplicates_aux {x : PRow} :
    ∀ (l acc : List PRow), x ∈ l.foldl (fun acc r => if r ∈ acc then acc else acc ++ [r]) acc →
    x ∈ acc ∨ x ∈ l
  | [], acc, h => Or.inl h
  | y :: l, acc, h => by
    rw [List.foldl_cons] at h
    rcases mem_dropDuplicates_aux l _ h with h' | h'
    · split at h'
      · exact Or.elim (Or.inl h') Or.inl Or.inr
      · rcases List.mem_append.mp h' with h'' | h''
        · exact Or.inl h''
        · simp at h''
          exact Or.inr (by simp [h''])
    · exact Or.inr (by simp [h'])

theorem mem_dropDuplicates {x : PRow} {l : List PRow} (h : x ∈ dropDuplicates l) : x ∈ l := by
  rcases mem_dropDuplicates_aux l [] h with h' | h'
  · cases h'
  · exact h'

theorem mem_finalizeTree {x : PRow} {tree procsRows : List PRow}
    (h : x ∈ finalizeTree tree procsRows) : x ∈ tree ∨ x ∈ procsRows := by
  unfold finalizeTree at h
  have h1 := mem_dropDuplicates h
  have h2 := (List.mem_filter.mp h1).1
  exact List.mem_append.mp (mem_sortByTime h2)

/-- Master invariant: with the default seed selection, every output row of
`generate_process_tree` satisfies any predicate `P` that holds for the
tagged seeds, for walk-tagged parent/child rows within the count bounds,
and for generation-1 children of a seed. -/
theorem generate_process_tree_inv (audit : List PRow) (D : Nat) (P : PRow → Prop)
    (HparentTag : ∀ (c : Nat) (r : PRow), 1 ≤ c → c ≤ D + audit.length → r ∈ audit →
      P (tagRow "parent" c r))
    (HchildTag : ∀ (c : Nat) (r : PRow), 2 ≤ c → c ≤ D + audit.length → r ∈ audit →
      P (tagRow "child" c r))
    (Hchild1 : ∀ (proc r : PRow), proc ∈ seedsOf audit → r ∈ audit →
      proc.timeGenerated < r.timeGenerated → r.ppid = proc.pid → P (tagRow "child" 1 r))
    (Hseed : ∀ r ∈ seedsOf audit, P r)
    (st' : Option ProcTable) (out : List PRow)
    (he : generate_process_tree audit D Option.none = Option.some (st', out)) :
    ∀ r ∈ out, P r := by
  unfold generate_process_tree genProcessTreeFuel at he
  simp only at he
  rw [if_pos (by simp)] at he
  rcases hsf : seedFold audit D D (seedsOf audit) with _ | tree
  · rw [show (List.map (tagRow "source" 0)
      (List.take 5 (List.filter (fun r => r.pid.isSome) audit))) = seedsOf audit from rfl,
      hsf] at he
    cases he
  · rw [show (List.map (tagRow "source" 0)
      (List.take 5 (List.filter (fun r => r.pid.isSome) audit))) = seedsOf audit from rfl,
      hsf] at he
    injection he with he2
    have hout : out = finalizeTree tree (seedsOf audit) := (Prod.mk.injEq _ _ _ _ ▸ he2).2.symm
    have htree : ∀ r ∈ tree, P r := by
      unfold seedFold at hsf
      have hinv := foldl_inv
        (fun (ot : Option (List PRow)) => ∀ tr, ot = Option.some tr → ∀ r ∈ tr, P r)
        (f := seedStep audit D D (seedsOf audit)) (l := (seedsOf audit).map (fun r => r.pid))
        (b := Option.some [])
        (by intro tr htr; cases htr; intro r hr; cases hr) ?_
      · exact hinv tree hsf
      · intro x hx c hc
        unfold seedStep
        rcases c with _ | tree0
        · intro tr htr; cases htr
        · rcases x with _ | pp
          · intro tr htr; cases htr
          · intro tr htr
            refine descPass_tree audit D P HchildTag D (seedsOf audit) Hchild1 _ tr ?_ htr
            refine ancWhile_tree audit D P HparentTag D _ ?_ ?_
            · intro r' hr'
              rcases List.mem_append.mp hr' with h | h
              · exact hc tree0 rfl r' h
              · obtain ⟨r0, hr0, rfl⟩ := List.mem_map.mp h
                have hmem : r0 ∈ audit := (List.mem_filter.mp hr0).1
                refine HparentTag 1 r0 (by omega) ?_ hmem
                have : 0 < audit.length := List.length_pos_of_mem hmem
                omega
            · show (gen1Parents audit pp).length ≤ audit.length
              unfold gen1Parents lookupByPid
              rw [List.length_map]
              exact List.length_filter_le _ _
    intro r hr
    rw [hout] at hr
    rcases mem_finalizeTree hr with h | h
    · exact htree r h
    · exact Hseed r h

/-! ## Claims about the process-tree builder -/

/-- **C1** (corrected), counterexample.  On a two-row linear chain with
`branch_depth = 1`, the ancestor walk tags a row with `Level = 2 > D`:
the level counter is incremented once per row inside a generation, and
`Level = count + 1` is assigned while `count ≤ D` still holds, so levels
up to `D + 1` (and beyond, with duplicated pids) appear in the output. -/
theorem C1_level_exceeds_depth_counterexample :
    (generate_process_tree
      [PRow.mk 1 (Option.some 10) (Option.some 11) Option.none Option.none Option.none
        Option.none Option.none Option.none,
       PRow.mk 0 (Option.some 11) (Option.some 12) Option.none Option.none Option.none
        Option.none Option.none Option.none]
      1 Option.none).map
      (fun s => s.2.any (fun r => decide (1 < r.level.getD 0))) = Option.some true := by
  decide

/-- **C1** (corrected, amended).  The builder always terminates — each
while-loop stabilizes within `D` iterations regardless of cycles or
duplicated identifiers — but output levels are not bounded by `D`: the
provable bound is `D + (number of rows in the table)` for the default seed
selection. -/
theorem C1_termination_and_level_bound :
    (∀ (audit : List PRow) (D k : Nat) (ps : Option ProcTable),
      genProcessTreeFuel audit D ps (D + k) = genProcessTreeFuel audit D ps D)
    ∧ (∀ (audit : List PRow) (D : Nat) (st' : Option ProcTable) (out : List PRow),
      generate_process_tree audit D Option.none = Option.some (st', out) →
      ∀ r ∈ out, ∀ l, r.level = Option.some l → l ≤ D + audit.length) := by
  constructor
  · intro audit D k ps
    exact genProcessTreeFuel_stable audit D ps k
  · intro audit D st' out he
    refine generate_process_tree_inv audit D
      (fun r => ∀ l, r.level = Option.some l → l ≤ D + audit.length) ?_ ?_ ?_ ?_ st' out he
    · intro c r h1 h2 _ l hl
      injection hl with hl'
      omega
    · intro c r h2 hc _ l hl
      injection hl with hl'
      omega
    · intro proc r _ hr _ _ l hl
      injection hl with hl'
      have : 0 < audit.length := List.length_pos_of_mem hr
      omega
    · intro r hr l hl
      obtain ⟨r0, _, rfl⟩ := List.mem_map.mp hr
      injection hl with hl'
      omega

/-- Witness for `C1_termination_and_level_bound` on a concrete table. -/
theorem C1_termination_and_level_bound_witness :
    (genProcessTreeFuel
      [PRow.mk 0 (Option.some 7) Option.none Option.none Option.none Option.none
        Option.none Option.none Option.none] 2 Option.none (2 + 5) =
     genProcessTreeFuel
      [PRow.mk 0 (Option.some 7) Option.none Option.none Option.none Option.none
        Option.none Option.none Option.none] 2 Option.none 2)
    ∧ (∀ r ∈ [tagRow "source" 0 (PRow.mk 0 (Option.some 7) Option.none Option.none Option.none
        Option.none Option.none Option.none Option.none),
        tagRow "parent" 1 (PRow.mk 0 (Option.some 7) Option.none Option.none Option.none
        Option.none Option.none Option.none Option.none)],
        ∀ l, r.level = Option.some l → l ≤ 2 + 1) := by
  constructor
  · exact C1_termination_and_level_bound.1
      [PRow.mk 0 (Option.some 7) Option.none Option.none Option.none Option.none
        Option.none Option.none Option.none] 2 5 Option.none
  · refine C1_termination_and_level_bound.2
      [PRow.mk 0 (Option.some 7) Option.none Option.none Option.none Option.none
        Option.none Option.none Option.none] 2 Option.none _ ?_
    decide

/-- **C7** (corrected), counterexample.  Generation-2 descendant lookups
select from the whole table with no timestamp filter: on this three-row
table the output contains a `child`-tagged row with timestamp 5, while
every default seed has timestamp ≥ 5, so no walk's seed is strictly
earlier than it. -/
theorem C7_descendant_timestamp_counterexample :
    ((generate_process_tree
      [PRow.mk 10 (Option.some 1) Option.none Option.none Option.none Option.none
        Option.none Option.none Option.none,
       PRow.mk 20 (Option.some 2) (Option.some 1) Option.none Option.none Option.none
        Option.none Option.none Option.none,
       PRow.mk 5 (Option.some 3) (Option.some 2) Option.none Option.none Option.none
        Option.none Option.none Option.none]
      4 Option.none).map
      (fun s => s.2.any (fun r =>
        r.nodeRole == Option.some "child" && r.timeGenerated == 5)) = Option.some true)
    ∧ (∀ p ∈ seedsOf
      [PRow.mk 10 (Option.some 1) Option.none Option.none Option.none Option.none
        Option.none Option.none Option.none,
       PRow.mk 20 (Option.some 2) (Option.some 1) Option.none Option.none Option.none
        Option.none Option.none Option.none,
       PRow.mk 5 (Option.some 3) (Option.some 2) Option.none Option.none Option.none
        Option.none Option.none Option.none], ¬ (p.timeGenerated < 5)) := by
  constructor
  · decide
  · decide

/-- **C7** (corrected, amended).  Only generation-1 child rows carry the
timestamp guarantee: every output row tagged `child` at level 1 has a
timestamp strictly greater than that of some default seed row whose pid
equals its ppid.  Deeper generations are selected from the whole table
with no timestamp constraint at all. -/
theorem C7_gen1_child_timestamp (audit : List PRow) (D : Nat) (st' : Option ProcTable)
    (out : List PRow)
    (he : generate_process_tree audit D Option.none = Option.some (st', out)) :
    ∀ r ∈ out, r.nodeRole = Option.some "child" → r.level = Option.some 1 →
      ∃ p ∈ seedsOf audit, p.timeGenerated < r.timeGenerated ∧ r.ppid = p.pid := by
  refine generate_process_tree_inv audit D
    (fun r => r.nodeRole = Option.some "child" → r.level = Option.some 1 →
      ∃ p ∈ seedsOf audit, p.timeGenerated < r.timeGenerated ∧ r.ppid = p.pid)
    ?_ ?_ ?_ ?_ st' out he
  · intro c r _ _ _ hrole _
    injection hrole with h'
    exact absurd h' (by decide)
  · intro c r h2 _ _ _ hlvl
    injection hlvl with h'
    omega
  · intro proc r hproc _ ht hppid _ _
    exact ⟨proc, hproc, ht, hppid⟩
  · intro r hr hrole _
    obtain ⟨r0, _, rfl⟩ := List.mem_map.mp hr
    injection hrole with h'
    exact absurd h' (by decide)

/-- Witness for `C7_gen1_child_timestamp`: the level-1 child row of a
concrete two-row table has a later timestamp than a matching seed. -/
theorem C7_gen1_child_timestamp_witness :
    ∃ p ∈ seedsOf [PRow.mk 0 (Option.some 1) Option.none Option.none Option.none
        Option.none Option.none Option.none Option.none,
        PRow.mk 3 (Option.some 2) (Option.some 1) Option.none Option.none
        Option.none Option.none Option.none Option.none],
      p.timeGenerated < (tagRow "child" 1 (PRow.mk 3 (Option.some 2) (Option.some 1)
        Option.none Option.none Option.none Option.none Option.none
        Option.none)).timeGenerated ∧
      (tagRow "child" 1 (PRow.mk 3 (Option.some 2) (Option.some 1) Option.none Option.none
        Option.none Option.none Option.none Option.none)).ppid = p.pid :=
  C7_gen1_child_timestamp
    [PRow.mk 0 (Option.some 1) Option.none Option.none Option.none Option.none Option.none
      Option.none Option.none,
     PRow.mk 3 (Option.some 2) (Option.some 1) Option.none Option.none Option.none Option.none
      Option.none Option.none] 4 Option.none
    [tagRow "source" 0 (PRow.mk 0 (Option.some 1) Option.none Option.none Option.none
        Option.none Option.none Option.none Option.none),
      tagRow "parent" 2 (PRow.mk 0 (Option.some 1) Option.none Option.none Option.none
        Option.none Option.none Option.none Option.none),
      tagRow "parent" 1 (PRow.mk 0 (Option.some 1) Option.none Option.none Option.none
        Option.none Option.none Option.none Option.none),
      tagRow "source" 0 (PRow.mk 3 (Option.some 2) (Option.some 1) Option.none Option.none
        Option.none Option.none Option.none Option.none),
      tagRow "child" 1 (PRow.mk 3 (Option.some 2) (Option.some 1) Option.none Option.none
        Option.none Option.none Option.none Option.none),
      tagRow "parent" 1 (PRow.mk 3 (Option.some 2) (Option.some 1) Option.none Option.none
        Option.none Option.none Option.none Option.none)]
    (by decide)
    (tagRow "child" 1 (PRow.mk 3 (Option.some 2) (Option.some 1) Option.none Option.none
      Option.none Option.none Option.none Option.none))
    (by decide) (by decide) (by decide)

/-- **C9** (corrected), counterexample.  `generate_process_tree` mutates a
caller-supplied seed table in place: after the call the caller's
`processes` table carries the added `NodeRole`/`Level` columns, so it is
no longer equal to what was passed in. -/
theorem C9_caller_table_mutated_counterexample :
    (generate_process_tree []
      4 (Option.some (ProcTable.mk
        [PRow.mk 0 (Option.some 1) Option.none Option.none Option.none Option.none
          Option.none Option.none Option.none] false false))).map (fun s => s.1) ≠
    Option.some (Option.some (ProcTable.mk
        [PRow.mk 0 (Option.some 1) Option.none Option.none Option.none Option.none
          Option.none Option.none Option.none] false false)) := by
  decide

/-- **C9** (corrected, amended).  The precise frame effects: (1) a
caller-supplied `processes` table lacking `NodeRole`/`Level` is rewritten
in place to its rows tagged `source`/0 with both columns added; (2) with
no supplied table, no caller-visible table state is touched (`audit_data`
is only read); (3) `extract_events_to_df` leaves its input table unchanged
when the input column is already parsed; (4) on a raw string row it
rewrites the table in place, adding `mssg_id` and replacing the input
column with the parsed message. -/
theorem C9_frame_effects :
    (∀ (audit : List PRow) (D fuel : Nat) (t : ProcTable) (ps' : Option ProcTable)
        (out : List PRow),
      t.hasNodeRole = false → t.hasLevel = false →
      genProcessTreeFuel audit D (Option.some t) fuel = Option.some (ps', out) →
      ps' = Option.some (ProcTable.mk (t.rows.map (tagRow "source" 0)) true true))
    ∧ (∀ (audit : List PRow) (D fuel : Nat) (ps' : Option ProcTable) (out : List PRow),
      genProcessTreeFuel audit D Option.none fuel = Option.some (ps', out) →
      ps' = Option.none)
    ∧ (∀ (data data' : List EvRow) (r0 : EvRow) (p : List (Dict (List String))),
      data.head? = Option.some r0 → r0.auditdMessage = AuditdCell.parsed p →
      extract_events_to_df_state data = Option.some data' → data' = data)
    ∧ (∀ (s : String) (ms : Option String),
      extract_events_to_df_state [EvRow.mk (AuditdCell.raw s) ms] =
        (parse_audit_message s).map
          (fun pr => [EvRow.mk (AuditdCell.parsed pr) (Option.some (extract_timestamp s))])) := by
  refine ⟨?_, ?_, ?_, ?_⟩
  · intro audit D fuel t ps' out h1 h2 he
    unfold genProcessTreeFuel at he
    simp only at he
    rw [if_pos ⟨h1, h2⟩] at he
    rcases hsf : seedFold audit D fuel (t.rows.map (tagRow "source" 0)) with _ | tree
    · rw [hsf] at he; cases he
    · rw [hsf] at he
      injection he with he2
      exact ((Prod.mk.injEq _ _ _ _ ▸ he2).1).symm
  · intro audit D fuel ps' out he
    unfold genProcessTreeFuel at he
    simp only at he
    rw [if_pos (by simp)] at he
    rcases hsf : seedFold audit D fuel
        ((List.take 5 (List.filter (fun r => r.pid.isSome) audit)).map (tagRow "source" 0))
        with _ | tree
    · rw [hsf] at he; cases he
    · rw [hsf] at he
      injection he with he2
      exact ((Prod.mk.injEq _ _ _ _ ▸ he2).1).symm
  · intro data data' r0 p hh hp he
    rcases data with _ | ⟨r1, rest⟩
    · cases hh
    · injection hh with hh1
      subst hh1
      unfold extract_events_to_df_state at he
      simp only [List.head?] at he
      rw [hp] at he
      injection he with he2
      exact he2.symm
  · intro s ms
    unfold extract_events_to_df_state
    simp only [List.head?]
    rcases hp : parse_audit_message s with _ | pr
    · simp [evRowCell, List.mapM, List.mapM.loop, hp]
    · simp [evRowCell, List.mapM, List.mapM.loop, hp]

/-- Witness for `C9_frame_effects` at concrete inputs. -/
theorem C9_frame_effects_witness :
    (Option.some (ProcTable.mk
      [tagRow "source" 0 (PRow.mk 0 (Option.some 1) Option.none Option.none Option.none
        Option.none Option.none Option.none Option.none)] true true) =
     Option.some (ProcTable.mk
      ([PRow.mk 0 (Option.some 1) Option.none Option.none Option.none Option.none
        Option.none Option.none Option.none].map (tagRow "source" 0)) true true))
    ∧ extract_events_to_df_state
        [EvRow.mk (AuditdCell.raw "type=A msg=audit(9:9): k=v") Option.none] =
      (parse_audit_message "type=A msg=audit(9:9): k=v").map
        (fun pr => [EvRow.mk (AuditdCell.parsed pr)
          (Option.some (extract_timestamp "type=A msg=audit(9:9): k=v"))]) := by
  constructor
  · have h := C9_frame_effects.1 [] 4 4
      (ProcTable.mk [PRow.mk 0 (Option.some 1) Option.none Option.none Option.none
        Option.none Option.none Option.none Option.none] false false)
      (Option.some (ProcTable.mk
        [tagRow "source" 0 (PRow.mk 0 (Option.some 1) Option.none Option.none Option.none
          Option.none Option.none Option.none Option.none)] true true))
      (dropDuplicates (sortByTime
        [tagRow "source" 0 (PRow.mk 0 (Option.some 1) Option.none Option.none Option.none
          Option.none Option.none Option.none Option.none)]))
      rfl rfl (by decide)
    rw [← h]
  · exact C9_frame_effects.2.2.2 "type=A msg=audit(9:9): k=v" Option.none

end Auditd
